import Mathlib

/-!
# Zippies: the autonomous drive orchestrator and its linear moves

A shallow embedding of `src/PlatformIO/src/AutoDriveMode.cpp` (constructor and
`AutoDriveMode::loop`) and of `src/PlatformIO/src/commands/LinearMove.h`.

* The orchestrator's three fields become the structure `AutoDriveMode`; one call of
  `AutoDriveMode::loop` becomes the function `AutoDriveMode.loop`, which takes what the
  call reads from its collaborators (`hasLighthouseSignal()`, `millis()` and the value
  the active command's `loop` would return) and yields the next state together with the
  ordered list of calls it makes on the collaborators.
* `unsigned long` is a natural number below `2 ^ 32`; its subtraction wraps.
* `double` is IEEE-754 binary64: a finite value is the rational number it denotes, and
  every operation rounds its exact result (`roundToDouble`).
* The constructor's path table and its two loops become `figure8`, `buildPath` and
  `pathPoints`; the build-time macro `PUT_YA_THING_DOWN_FLIP_IT_AND_REVERSE_IT` becomes
  a Boolean parameter.
* `LinearMove::start` and `LinearMove::update` become functions on the structure
  `LinearMove`; `update` returns the arguments of its call `zippy->move(x, y, heading)`.
-/

namespace Zippies

/-! ## Constants of `AutoDriveMode.cpp` -/

/-- The constant `PATH_POINT_COUNT` (37). -/
def PATH_POINT_COUNT : Nat := 37

/-- The constant `AUTODRIVE_MISSING_POSITION_TIMEOUT` (200). -/
def AUTODRIVE_MISSING_POSITION_TIMEOUT : Nat := 200

/-- The constant `ZIPPY_COMMAND_COUNT` (2). -/
def ZIPPY_COMMAND_COUNT : Nat := 2

/-- Number of values of an `unsigned long` (32 bits on the ARM target; `millis()`
returns one). -/
def ULONG_MOD : Nat := 4294967296

/-- Subtraction of two `unsigned long` values, as in
`currentTime - lostPositionTimestamp`: the result wraps modulo `2 ^ 32`. -/
def ulongSub (a b : Nat) : Nat := (a % ULONG_MOD + ULONG_MOD - b % ULONG_MOD) % ULONG_MOD

/-! ## The orchestrator -/

/-- The mutable fields of `AutoDriveMode` (the command objects and the path are
collaborators, see `Call`). -/
structure AutoDriveMode where
  lostPositionTimestamp : Nat
  moving : Bool
  currentCommand : Nat
deriving DecidableEq, Repr

/-- A call `AutoDriveMode::loop` makes on a collaborator: `zippy->stop()`,
`commands[idx]->start(t)` or `commands[idx]->loop(t)`. -/
inductive Call where
  | stop : Call
  | cmdStart (idx : Nat) (t : Nat) : Call
  | cmdLoop (idx : Nat) (t : Nat) : Call
deriving DecidableEq, Repr

/-- What one call of `AutoDriveMode::loop` reads from outside: the value of
`zippy->hasLighthouseSignal()`, the value of `millis()`, and the value that
`commands[currentCommand]->loop(currentTime)` returns if it is called. -/
structure Tick where
  signal : Bool
  now : Nat
  done : Bool
deriving DecidableEq, Repr

/-- State set up by the constructor's initialiser list. -/
def AutoDriveMode.init : AutoDriveMode :=
  { lostPositionTimestamp := 0, moving := false, currentCommand := 0 }

/-- Lines 300-314 of `AutoDriveMode::loop`: start the program if not moving, otherwise
advance the active command and, when it reports completion, start the next one. -/
def AutoDriveMode.advance (s : AutoDriveMode) (i : Tick) : AutoDriveMode × List Call :=
  if !s.moving then
    ({ s with moving := true, currentCommand := 0 }, [Call.cmdStart 0 i.now])
  else if i.done then
    let next := (s.currentCommand + 1) % ZIPPY_COMMAND_COUNT
    ({ s with currentCommand := next },
      [Call.cmdLoop s.currentCommand i.now, Call.cmdStart next i.now])
  else
    (s, [Call.cmdLoop s.currentCommand i.now])

/-- One call of `AutoDriveMode::loop`: the next state and the calls made, in order. -/
def AutoDriveMode.loop (s : AutoDriveMode) (i : Tick) : AutoDriveMode × List Call :=
  if s.currentCommand ≥ ZIPPY_COMMAND_COUNT then (s, [])
  else
    let currentTime := i.now
    if !i.signal then
      if !s.moving then (s, [])
      else if s.lostPositionTimestamp == 0 then
        AutoDriveMode.advance { s with lostPositionTimestamp := currentTime } i
      else if ulongSub currentTime s.lostPositionTimestamp
          ≥ AUTODRIVE_MISSING_POSITION_TIMEOUT then
        ({ s with lostPositionTimestamp := 0, moving := false }, [Call.stop])
      else AutoDriveMode.advance s i
    else
      AutoDriveMode.advance { s with lostPositionTimestamp := 0 } i

/-- States the orchestrator can be in: the constructor's state, and whatever one more
call of `loop` makes of such a state, for any signal value, any `unsigned long` time
and any command result. -/
inductive Reachable : AutoDriveMode → Prop where
  | init : Reachable AutoDriveMode.init
  | step (s : AutoDriveMode) (i : Tick) :
      Reachable s → i.now < ULONG_MOD → Reachable (s.loop i).1

/-- Running `loop` over a sequence of ticks: the final state and all calls made. -/
def AutoDriveMode.run (s : AutoDriveMode) : List Tick → AutoDriveMode × List Call
  | [] => (s, [])
  | i :: rest =>
    let r := s.loop i
    let r2 := AutoDriveMode.run r.1 rest
    (r2.1, r.2 ++ r2.2)

/-- The states after each tick of a run, in order. -/
def AutoDriveMode.trace (s : AutoDriveMode) : List Tick → List AutoDriveMode
  | [] => []
  | i :: rest => (s.loop i).1 :: AutoDriveMode.trace (s.loop i).1 rest

/-- A run in which every tick calls the active command's `loop` and that call reports
completion. -/
def AutoDriveMode.completesEach (s : AutoDriveMode) : List Tick → Bool
  | [] => true
  | i :: rest =>
    decide (Call.cmdLoop s.currentCommand i.now ∈ (s.loop i).2) && i.done
      && AutoDriveMode.completesEach (s.loop i).1 rest

/-- Every maximal run of consecutive ticks without signal stays less than
`AUTODRIVE_MISSING_POSITION_TIMEOUT` time units away from its first tick; `runStart` is
the time at which a run already in progress began, if there is one. -/
def gapsBelowTimeout : Option Nat → List Tick → Bool
  | _, [] => true
  | runStart, i :: rest =>
    if i.signal then gapsBelowTimeout none rest
    else
      match runStart with
      | none => gapsBelowTimeout (some i.now) rest
      | some t0 =>
        decide (i.now - t0 < AUTODRIVE_MISSING_POSITION_TIMEOUT)
          && gapsBelowTimeout (some t0) rest

/-- How the watchdog timestamp of a state relates to the run of ticks without signal in
progress: with no run in progress it is 0; with a run begun at `t0` it is 0 or no
earlier than `t0`, and neither is later than any tick still to come. -/
def watchdogTracks (s : AutoDriveMode) (runStart : Option Nat) (ticks : List Tick) : Prop :=
  match runStart with
  | none => s.lostPositionTimestamp = 0
  | some t0 =>
    (s.lostPositionTimestamp = 0 ∨ t0 ≤ s.lostPositionTimestamp)
      ∧ (∀ i ∈ ticks, t0 ≤ i.now) ∧ (∀ i ∈ ticks, s.lostPositionTimestamp ≤ i.now)

/-- State after the program was started at time 0: moving, watchdog not armed. -/
def startedAt0 : AutoDriveMode :=
  { lostPositionTimestamp := 0, moving := true, currentCommand := 0 }

/-- State reached after a start and a first signal loss at time 1000. -/
def armedAt1000 : AutoDriveMode :=
  { lostPositionTimestamp := 1000, moving := true, currentCommand := 0 }

/-- State reached from `armedAt1000` once the watchdog has stopped the robot. -/
def stoppedState : AutoDriveMode :=
  { lostPositionTimestamp := 0, moving := false, currentCommand := 0 }

/-! ## `double` arithmetic

A `double` is an IEEE-754 binary64 number. A finite one is held as the rational number it
denotes (the two zeros are not told apart); `none` stands for an infinity or a NaN.
Addition, subtraction and multiplication compute the exact result and round it to the
nearest binary64 number, ties to the even significand; a result of magnitude `2 ^ 1024`
or more after rounding is not finite, and an operation on a value that is not finite
gives a value that is not finite. -/

/-- Nearest integer, ties to the even one. -/
def roundHalfEven (x : ℚ) : ℤ :=
  if x - ⌊x⌋ < 1 / 2 then ⌊x⌋
  else if 1 / 2 < x - ⌊x⌋ then ⌊x⌋ + 1
  else if ⌊x⌋ % 2 = 0 then ⌊x⌋ else ⌊x⌋ + 1

/-- Spacing of the binary64 numbers around `q ≠ 0`: `2 ^ (e - 52)` where
`2 ^ e ≤ |q| < 2 ^ (e + 1)`, with `e` no smaller than `-1022` (subnormal range). -/
def ulp (q : ℚ) : ℚ := (2 : ℚ) ^ (max (Int.log 2 |q|) (-1022) - 52)

/-- Rounding of an exact result to binary64 (round to nearest, ties to even). -/
def roundToDouble (q : ℚ) : Option ℚ :=
  if q = 0 then some 0
  else
    let r := (roundHalfEven (q / ulp q) : ℚ) * ulp q
    if (2 : ℚ) ^ (1024 : ℕ) ≤ |r| then none else some r

/-- A C++ `double`. -/
abbrev Double := Option ℚ

/-- The rational `q` is a binary64 number: rounding leaves it as it is. -/
abbrev isDouble (q : ℚ) : Prop := roundToDouble q = some q

/-- The binary64 number nearest to `q`, before the test for overflow: the value
`roundToDouble` returns when it is finite and `q` is not zero. -/
def nearest (q : ℚ) : ℚ := (roundHalfEven (q / ulp q) : ℚ) * ulp q

/-- The `double` operation `a + b`. -/
def dadd (a b : Double) : Double := a.bind fun x => b.bind fun y => roundToDouble (x + y)

/-- The `double` operation `a - b`. -/
def dsub (a b : Double) : Double := a.bind fun x => b.bind fun y => roundToDouble (x - y)

/-- The `double` operation `a * b`. -/
def dmul (a b : Double) : Double := a.bind fun x => b.bind fun y => roundToDouble (x * y)

/-! ## `LinearMove` -/

/-- The class `KVector2`, of which the sources use the constructor, `set`, `getX` and
`getY`: a pair of `double` coordinates. -/
structure KVector2 where
  x : Double
  y : Double
deriving DecidableEq

/-- The class `KPosition`, of which `LinearMove` reads the member `vector`. -/
structure KPosition where
  vector : KVector2

/-- The fields of `LinearMove`; `startingPosition` holds what the pointer of that name
points to. -/
structure LinearMove where
  startingPosition : KPosition
  targetPosition : KVector2
  targetOrientation : Double
  executionTime : Nat

/-- The method `LinearMove::start`: records the starting position and the heading towards
the target and returns the execution time. The library function `atan2` is a
parameter. -/
def LinearMove.start (atan2 : Double → Double → Double) (m : LinearMove) (sp : KPosition) :
    LinearMove × Nat :=
  ({ m with
      startingPosition := sp
      targetOrientation := atan2 (dsub m.targetPosition.x sp.vector.x)
        (dsub m.targetPosition.y sp.vector.y) },
    m.executionTime)

/-- The method `LinearMove::update`: the three arguments it passes to `zippy->move`. -/
def LinearMove.update (m : LinearMove) (atNormalizedTime : Double) :
    Double × Double × Double :=
  (dadd m.startingPosition.vector.x
      (dmul (dsub m.targetPosition.x m.startingPosition.vector.x) atNormalizedTime),
    dadd m.startingPosition.vector.y
      (dmul (dsub m.targetPosition.y m.startingPosition.vector.y) atNormalizedTime),
    m.targetOrientation)

/-! ## Path construction (the constructor of `AutoDriveMode`) -/

/-- The constant `ZIPPY_SPACING_MM` (`60.0d`). -/
def ZIPPY_SPACING_MM : Double := some 60

/-- The numbers written in the 37 statements `pathPoints[i] = new KVector2(x, y)`
("figure 8 from center"), in index order. -/
def figure8 : List (ℚ × ℚ) :=
  [ (0, 0),  -- pathPoints[0]
    (0.1, -0.4),  -- pathPoints[1]
    (0.2, -0.5),  -- pathPoints[2]
    (0.5, -0.5),  -- pathPoints[3]
    (0.6, -0.4),  -- pathPoints[4]
    (0.6, 0.4),  -- pathPoints[5]
    (0.5, 0.5),  -- pathPoints[6]
    (0.2, 0.5),  -- pathPoints[7]
    (0.1, 0.4),  -- pathPoints[8]
    (0, 0),  -- pathPoints[9]
    (-0.1, -0.4),  -- pathPoints[10]
    (-0.2, -0.5),  -- pathPoints[11]
    (-0.5, -0.5),  -- pathPoints[12]
    (-0.6, -0.4),  -- pathPoints[13]
    (-0.6, 0.4),  -- pathPoints[14]
    (-0.5, 0.5),  -- pathPoints[15]
    (-0.2, 0.5),  -- pathPoints[16]
    (-0.1, 0.4),  -- pathPoints[17]
    (0, 0),  -- pathPoints[18]
    (0.1, -0.4),  -- pathPoints[19]
    (0.2, -0.5),  -- pathPoints[20]
    (0.5, -0.5),  -- pathPoints[21]
    (0.6, -0.4),  -- pathPoints[22]
    (0.6, 0.4),  -- pathPoints[23]
    (0.5, 0.5),  -- pathPoints[24]
    (0.2, 0.5),  -- pathPoints[25]
    (0.1, 0.4),  -- pathPoints[26]
    (0, 0),  -- pathPoints[27]
    (-0.1, -0.4),  -- pathPoints[28]
    (-0.2, -0.5),  -- pathPoints[29]
    (-0.5, -0.5),  -- pathPoints[30]
    (-0.6, -0.4),  -- pathPoints[31]
    (-0.6, 0.4),  -- pathPoints[32]
    (-0.5, 0.5),  -- pathPoints[33]
    (-0.2, 0.5),  -- pathPoints[34]
    (-0.1, 0.4),  -- pathPoints[35]
    (0, 0)   -- pathPoints[36]
  ]

/-- The table as built by lines 74-111: each written number becomes a `double`. -/
def sourcePoints : List KVector2 :=
  figure8.map fun p => ⟨roundToDouble p.1, roundToDouble p.2⟩

/-- Line 114: `set(getX() * 1100.0d, (getY() * 900.0d) - 2750.0d)`. -/
def scalePoint (p : KVector2) : KVector2 :=
  ⟨dmul p.x (some 1100), dsub (dmul p.y (some 900)) (some 2750)⟩

/-- Lines 115-119: add the spacing to both axes when
`PUT_YA_THING_DOWN_FLIP_IT_AND_REVERSE_IT` is defined, subtract it otherwise. -/
def offsetPoint (flipAndReverse : Bool) (p : KVector2) : KVector2 :=
  if flipAndReverse then ⟨dadd p.x ZIPPY_SPACING_MM, dadd p.y ZIPPY_SPACING_MM⟩
  else ⟨dsub p.x ZIPPY_SPACING_MM, dsub p.y ZIPPY_SPACING_MM⟩

/-- Lines 124-126: exchange `pts[i]` and `pts[j]` through `tmp`. -/
def swapAt {α : Type} (pts : List α) (i j : Nat) : List α :=
  match pts[i]?, pts[j]? with
  | some tmp, some q => (pts.set i q).set j tmp
  | _, _ => pts

/-- Lines 123-127: the loop `for (int i = 0; i < n / 2; i++)` that exchanges `pts[i]` and
`pts[n - i - 1]`. -/
def swapLoop {α : Type} (n : Nat) (pts : List α) : List α :=
  (List.range (n / 2)).foldl (fun a i => swapAt a i (n - i - 1)) pts

/-- Lines 112-128: the loop over all points that scales and offsets each of them, then,
in the flip-and-reverse build, the swap loop. -/
def buildPath (flipAndReverse : Bool) (pts : List KVector2) : List KVector2 :=
  let moved := pts.map fun p => offsetPoint flipAndReverse (scalePoint p)
  if flipAndReverse then swapLoop PATH_POINT_COUNT moved else moved

/-- The array `pathPoints` at the end of the constructor; the source as it stands builds
`pathPoints false` (the macro is commented out). -/
def pathPoints (flipAndReverse : Bool) : List KVector2 :=
  buildPath flipAndReverse sourcePoints

/-- The 37 waypoints of the build without the macro (leader role). -/
def leaderWaypoints : List KVector2 :=
    [⟨some (-60), some (-2810)⟩, ⟨some 50, some (-3170)⟩, ⟨some 160, some (-3260)⟩,
     ⟨some 490, some (-3260)⟩, ⟨some 600, some (-3170)⟩, ⟨some 600, some (-2450)⟩,
     ⟨some 490, some (-2360)⟩, ⟨some 160, some (-2360)⟩, ⟨some 50, some (-2450)⟩,
     ⟨some (-60), some (-2810)⟩, ⟨some (-170), some (-3170)⟩, ⟨some (-280), some (-3260)⟩,
     ⟨some (-610), some (-3260)⟩, ⟨some (-720), some (-3170)⟩, ⟨some (-720), some (-2450)⟩,
     ⟨some (-610), some (-2360)⟩, ⟨some (-280), some (-2360)⟩, ⟨some (-170), some (-2450)⟩,
     ⟨some (-60), some (-2810)⟩, ⟨some 50, some (-3170)⟩, ⟨some 160, some (-3260)⟩,
     ⟨some 490, some (-3260)⟩, ⟨some 600, some (-3170)⟩, ⟨some 600, some (-2450)⟩,
     ⟨some 490, some (-2360)⟩, ⟨some 160, some (-2360)⟩, ⟨some 50, some (-2450)⟩,
     ⟨some (-60), some (-2810)⟩, ⟨some (-170), some (-3170)⟩, ⟨some (-280), some (-3260)⟩,
     ⟨some (-610), some (-3260)⟩, ⟨some (-720), some (-3170)⟩, ⟨some (-720), some (-2450)⟩,
     ⟨some (-610), some (-2360)⟩, ⟨some (-280), some (-2360)⟩, ⟨some (-170), some (-2450)⟩,
     ⟨some (-60), some (-2810)⟩]

/-- The 37 waypoints of the build with the macro (follower role). -/
def followerWaypoints : List KVector2 :=
    [⟨some 60, some (-2690)⟩, ⟨some (-50), some (-2330)⟩, ⟨some (-160), some (-2240)⟩,
     ⟨some (-490), some (-2240)⟩, ⟨some (-600), some (-2330)⟩, ⟨some (-600), some (-3050)⟩,
     ⟨some (-490), some (-3140)⟩, ⟨some (-160), some (-3140)⟩, ⟨some (-50), some (-3050)⟩,
     ⟨some 60, some (-2690)⟩, ⟨some 170, some (-2330)⟩, ⟨some 280, some (-2240)⟩,
     ⟨some 610, some (-2240)⟩, ⟨some 720, some (-2330)⟩, ⟨some 720, some (-3050)⟩,
     ⟨some 610, some (-3140)⟩, ⟨some 280, some (-3140)⟩, ⟨some 170, some (-3050)⟩,
     ⟨some 60, some (-2690)⟩, ⟨some (-50), some (-2330)⟩, ⟨some (-160), some (-2240)⟩,
     ⟨some (-490), some (-2240)⟩, ⟨some (-600), some (-2330)⟩, ⟨some (-600), some (-3050)⟩,
     ⟨some (-490), some (-3140)⟩, ⟨some (-160), some (-3140)⟩, ⟨some (-50), some (-3050)⟩,
     ⟨some 60, some (-2690)⟩, ⟨some 170, some (-2330)⟩, ⟨some 280, some (-2240)⟩,
     ⟨some 610, some (-2240)⟩, ⟨some 720, some (-2330)⟩, ⟨some 720, some (-3050)⟩,
     ⟨some 610, some (-3140)⟩, ⟨some 280, some (-3140)⟩, ⟨some 170, some (-3050)⟩,
     ⟨some 60, some (-2690)⟩]

/-- The binary64 number nearest to `0.1`. -/
def tenth : ℚ := 3602879701896397 / 36028797018963968

/-- A move from `(1, 0)` to `(0.1, 0)`. -/
def moveToTenth : LinearMove :=
  { startingPosition := ⟨⟨some 1, some 0⟩⟩
    targetPosition := ⟨some tenth, some 0⟩
    targetOrientation := none
    executionTime := 1000 }

/-- A move from `(0.1, 0)` to `(1.5, 0)`. -/
def moveFromTenth : LinearMove :=
  { startingPosition := ⟨⟨some tenth, some 0⟩⟩
    targetPosition := ⟨some (3 / 2), some 0⟩
    targetOrientation := none
    executionTime := 1000 }

/-- The binary64 number `2 ^ 1023`. -/
def huge : ℚ := (2 : ℚ) ^ (1023 : ℕ)

/-- A move from `(-2 ^ 1023, 0)` to `(2 ^ 1023, 0)`. -/
def moveAcross : LinearMove :=
  { startingPosition := ⟨⟨some (-huge), some 0⟩⟩
    targetPosition := ⟨some huge, some 0⟩
    targetOrientation := none
    executionTime := 1000 }

/-- A function with the value the C library gives `atan2` on the positive y axis,
`atan2(0, y) = 0` for finite `y > 0`; its other values play no role here. -/
def atan2OnAxis (x y : Double) : Double :=
  match x, y with
  | some a, some b => if a = 0 ∧ 0 < b then some 0 else none
  | _, _ => none

/-- A move to `(0, 100)`, not started yet. -/
def moveAlongY : LinearMove :=
  { startingPosition := ⟨⟨none, none⟩⟩
    targetPosition := ⟨some 0, some 100⟩
    targetOrientation := none
    executionTime := 1000 }

/-- A move from `(0, 0)` to `(1, 1)`. -/
def moveUnit : LinearMove :=
  { startingPosition := ⟨⟨some 0, some 0⟩⟩
    targetPosition := ⟨some 1, some 1⟩
    targetOrientation := none
    executionTime := 1000 }

/-- A move from `(0, 0)` to `(100, 50)`. -/
def moveToHundred : LinearMove :=
  { startingPosition := ⟨⟨some 0, some 0⟩⟩
    targetPosition := ⟨some 100, some 50⟩
    targetOrientation := none
    executionTime := 1000 }

/-- The binary64 number nearest to `0.9`. -/
def nineTenths : ℚ := 8106479329266893 / 9007199254740992

/-- A move from `(3, 0)` to `(0, 0)`. -/
def moveFromThree : LinearMove :=
  { startingPosition := ⟨⟨some 3, some 0⟩⟩
    targetPosition := ⟨some 0, some 0⟩
    targetOrientation := none
    executionTime := 1000 }

/-- A move from `(3, 0)` to `(4, 0)`. -/
def moveThreeToFour : LinearMove :=
  { startingPosition := ⟨⟨some 3, some 0⟩⟩
    targetPosition := ⟨some 4, some 0⟩
    targetOrientation := none
    executionTime := 1000 }

/-- A move from `(2, 0)` to `(0.1, 0)`. -/
def moveTwoToTenth : LinearMove :=
  { startingPosition := ⟨⟨some 2, some 0⟩⟩
    targetPosition := ⟨some tenth, some 0⟩
    targetOrientation := none
    executionTime := 1000 }

/-! ## Basic facts -/

theorem ulongSub_of_le {a b : Nat} (hb : b ≤ a) (ha : a < ULONG_MOD) :
    ulongSub a b = a - b := by
  unfold ulongSub ULONG_MOD at *
  omega

theorem reachable_currentCommand_lt {s : AutoDriveMode} (h : Reachable s) :
    s.currentCommand < ZIPPY_COMMAND_COUNT := by
  induction h with
  | init => decide
  | step s i _ _ ih =>
    simp only [AutoDriveMode.loop, AutoDriveMode.advance, ZIPPY_COMMAND_COUNT] at *
    split_ifs <;> simp <;> omega

theorem reachable_startedAt0 : Reachable startedAt0 :=
  Reachable.step _ ⟨true, 0, false⟩ Reachable.init (by decide)

theorem reachable_armedAt1000 : Reachable armedAt1000 :=
  Reachable.step _ ⟨false, 1000, false⟩ reachable_startedAt0 (by decide)

theorem reachable_stoppedState : Reachable stoppedState :=
  Reachable.step _ ⟨false, 1200, false⟩ reachable_armedAt1000 (by decide)

theorem reachable_run (s : AutoDriveMode) (hr : Reachable s) :
    ∀ ticks : List Tick, (∀ i ∈ ticks, i.now < ULONG_MOD) → Reachable (s.run ticks).1 := by
  intro ticks
  induction ticks generalizing s with
  | nil => intro _; exact hr
  | cons i rest ih =>
    intro h
    exact ih (s.loop i).1 (Reachable.step s i hr (h i (List.mem_cons_self _ _)))
      (fun j hj => h j (List.mem_cons_of_mem _ hj))

/-- While not moving, a tick without signal changes nothing and calls nothing. -/
theorem loop_idle_no_signal (s : AutoDriveMode) (i : Tick) (hm : s.moving = false)
    (hs : i.signal = false) : s.loop i = (s, []) := by
  simp [AutoDriveMode.loop, hm, hs]

theorem run_idle_no_signal (s : AutoDriveMode) (hm : s.moving = false) :
    ∀ ticks : List Tick, (∀ i ∈ ticks, i.signal = false) → s.run ticks = (s, []) := by
  intro ticks
  induction ticks with
  | nil => intro _; rfl
  | cons i rest ih =>
    intro h
    have h1 := loop_idle_no_signal s i hm (h i (List.mem_cons_self _ _))
    have h2 := ih (fun j hj => h j (List.mem_cons_of_mem _ hj))
    simp [AutoDriveMode.run, h1, h2]

/-- A tick that calls the active command's `loop` does nothing else than to advance
the program. -/
theorem loop_of_cmdLoop_mem (s : AutoDriveMode) (i : Tick)
    (h : Call.cmdLoop s.currentCommand i.now ∈ (s.loop i).2) :
    (i.done = true →
        (s.loop i).1.currentCommand = (s.currentCommand + 1) % ZIPPY_COMMAND_COUNT
          ∧ (s.loop i).2 = [Call.cmdLoop s.currentCommand i.now,
              Call.cmdStart ((s.currentCommand + 1) % ZIPPY_COMMAND_COUNT) i.now])
      ∧ (i.done = false →
        (s.loop i).1.currentCommand = s.currentCommand
          ∧ (s.loop i).2 = [Call.cmdLoop s.currentCommand i.now]) := by
  revert h
  simp only [AutoDriveMode.loop, AutoDriveMode.advance]
  cases hm : s.moving <;> cases hd : i.done <;> split_ifs <;> simp_all

theorem trace_of_completesEach (s : AutoDriveMode) :
    ∀ ticks : List Tick, s.completesEach ticks = true →
      (s.trace ticks).map AutoDriveMode.currentCommand
        = (List.range ticks.length).map
            (fun k => (s.currentCommand + (k + 1)) % ZIPPY_COMMAND_COUNT) := by
  intro ticks
  induction ticks generalizing s with
  | nil => intro _; rfl
  | cons i rest ih =>
    intro h
    simp only [AutoDriveMode.completesEach, Bool.and_eq_true, decide_eq_true_eq] at h
    obtain ⟨⟨hmem, hd⟩, hrest⟩ := h
    have hc := ((loop_of_cmdLoop_mem s i hmem).1 hd).1
    have ih2 := ih (s.loop i).1 hrest
    simp only [AutoDriveMode.trace, List.map_cons, List.length_cons, List.range_succ_eq_map,
      List.map_map, ih2, hc]
    refine congrArg₂ _ (by simp) ?_
    apply List.map_congr_left
    intro k _
    simp only [Function.comp, ZIPPY_COMMAND_COUNT]
    omega

/-- Tolerance of one: in a reachable moving state with the watchdog unarmed, a tick
without signal does not stop, stores the tick time in `lostPositionTimestamp` (which
arms the watchdog unless that time is 0), and makes the same calls and reaches the
same command index as the tick with signal would. -/
theorem tolerance_of_one (s : AutoDriveMode) (i : Tick) (hr : Reachable s)
    (hm : s.moving = true) (hl : s.lostPositionTimestamp = 0) (hs : i.signal = false) :
    (s.loop i).1.moving = true
      ∧ (s.loop i).1.lostPositionTimestamp = i.now
      ∧ Call.stop ∉ (s.loop i).2
      ∧ (s.loop i).2 = (s.loop ⟨true, i.now, i.done⟩).2
      ∧ (s.loop i).1.currentCommand = (s.loop ⟨true, i.now, i.done⟩).1.currentCommand := by
  have hc := reachable_currentCommand_lt hr
  cases hd : i.done <;>
    simp [AutoDriveMode.loop, AutoDriveMode.advance, hm, hl, hs, hd, Nat.not_le.mpr hc]

/-- The advance step never calls `stop()`, and keeps a moving state moving with the
same watchdog timestamp and an index within the program. -/
theorem advance_of_moving (s : AutoDriveMode) (i : Tick) (hm : s.moving = true)
    (hc : s.currentCommand < ZIPPY_COMMAND_COUNT) :
    (s.advance i).1.moving = true
      ∧ (s.advance i).1.lostPositionTimestamp = s.lostPositionTimestamp
      ∧ (s.advance i).1.currentCommand < ZIPPY_COMMAND_COUNT
      ∧ (s.advance i).2.count Call.stop = 0 := by
  have h2 : (s.currentCommand + 1) % ZIPPY_COMMAND_COUNT < ZIPPY_COMMAND_COUNT :=
    Nat.mod_lt _ (by decide)
  cases hd : i.done <;> simp [AutoDriveMode.advance, hm, hd, hc, h2]

/-- From a moving state whose watchdog is armed at `a`, a run of ticks without signal at
times from `a` on, one of which is at `a + 200` or later, ends stopped, with exactly
one `stop()`, which is the last call of the whole run. -/
theorem run_armed_no_signal (a : Nat) (ha : a ≠ 0) :
    ∀ (ticks : List Tick) (s : AutoDriveMode), s.moving = true →
      s.currentCommand < ZIPPY_COMMAND_COUNT → s.lostPositionTimestamp = a →
      (∀ i ∈ ticks, i.signal = false ∧ a ≤ i.now ∧ i.now < ULONG_MOD) →
      (∃ j ∈ ticks, a + AUTODRIVE_MISSING_POSITION_TIMEOUT ≤ j.now) →
      (s.run ticks).1.moving = false ∧ (s.run ticks).1.lostPositionTimestamp = 0
        ∧ (s.run ticks).2.count Call.stop = 1
        ∧ (s.run ticks).2.getLast? = some Call.stop := by
  intro ticks
  induction ticks with
  | nil => intro s _ _ _ _ h; simp at h
  | cons i rest ih =>
    intro s hm hc hl hall hex
    obtain ⟨hs, hai, hnow⟩ := hall i (List.mem_cons_self _ _)
    have hrest : ∀ j ∈ rest, j.signal = false ∧ a ≤ j.now ∧ j.now < ULONG_MOD :=
      fun j hj => hall j (List.mem_cons_of_mem _ hj)
    have hsub : ulongSub i.now a = i.now - a := ulongSub_of_le hai hnow
    by_cases ht : a + AUTODRIVE_MISSING_POSITION_TIMEOUT ≤ i.now
    · have hge : AUTODRIVE_MISSING_POSITION_TIMEOUT ≤ ulongSub i.now a := by omega
      have h1 : s.loop i = (⟨0, false, s.currentCommand⟩, [Call.stop]) := by
        simp [AutoDriveMode.loop, hm, hs, hl, ha, hge, Nat.not_le.mpr hc]
      have h2 := run_idle_no_signal ⟨0, false, s.currentCommand⟩ rfl rest
        (fun j hj => (hrest j hj).1)
      simp [AutoDriveMode.run, h1, h2]
    · have hlt : ¬ AUTODRIVE_MISSING_POSITION_TIMEOUT ≤ ulongSub i.now a := by omega
      have h1 : s.loop i = s.advance i := by
        simp [AutoDriveMode.loop, hm, hs, hl, ha, hlt, Nat.not_le.mpr hc]
      obtain ⟨am, al, ac, an⟩ := advance_of_moving s i hm hc
      have hex2 : ∃ j ∈ rest, a + AUTODRIVE_MISSING_POSITION_TIMEOUT ≤ j.now := by
        obtain ⟨j, hj, hjt⟩ := hex
        rcases List.mem_cons.mp hj with rfl | hj2
        · exact absurd hjt ht
        · exact ⟨j, hj2, hjt⟩
      obtain ⟨r1, r2, r3, r4⟩ := ih (s.advance i).1 am ac (al.trans hl) hrest hex2
      simp only [AutoDriveMode.run, h1]
      refine ⟨r1, r2, ?_, ?_⟩
      · rw [List.count_append, an, r3]
      · rw [List.getLast?_append, r4]; rfl

/-- Sustained loss, for a run that does not begin at time 0. From a reachable moving
state whose watchdog is unarmed or was armed no later than the first tick, a run of
ticks without signal at non-decreasing times, the first of them not at time 0, that
reaches 200 time units past its first tick ends stopped with exactly one `stop()`,
which is the last call of the run; the next tick with signal restarts command 0. -/
theorem sustained_loss_stops_once (s : AutoDriveMode) (i0 : Tick) (rest : List Tick)
    (hr : Reachable s) (hm : s.moving = true)
    (harm : s.lostPositionTimestamp ≤ i0.now) (h0 : i0.now ≠ 0)
    (habs : ∀ i ∈ i0 :: rest, i.signal = false)
    (hrange : ∀ i ∈ i0 :: rest, i.now < ULONG_MOD)
    (hmono : (i0 :: rest).Pairwise (fun x y => x.now ≤ y.now))
    (hspan : ∃ j ∈ i0 :: rest, i0.now + AUTODRIVE_MISSING_POSITION_TIMEOUT ≤ j.now) :
    (s.run (i0 :: rest)).1.moving = false
      ∧ (s.run (i0 :: rest)).2.count Call.stop = 1
      ∧ (s.run (i0 :: rest)).2.getLast? = some Call.stop
      ∧ ∀ t d, (s.run (i0 :: rest)).1.loop ⟨true, t, d⟩
          = ({ lostPositionTimestamp := 0, moving := true, currentCommand := 0 },
              [Call.cmdStart 0 t]) := by
  have hc := reachable_currentCommand_lt hr
  have hge : ∀ j ∈ rest, i0.now ≤ j.now := (List.pairwise_cons.mp hmono).1
  have key : (s.run (i0 :: rest)).1.moving = false
      ∧ (s.run (i0 :: rest)).1.lostPositionTimestamp = 0
      ∧ (s.run (i0 :: rest)).2.count Call.stop = 1
      ∧ (s.run (i0 :: rest)).2.getLast? = some Call.stop := by
    by_cases hl : s.lostPositionTimestamp = 0
    · have h1 : s.loop i0
          = AutoDriveMode.advance { s with lostPositionTimestamp := i0.now } i0 := by
        simp [AutoDriveMode.loop, hm, habs i0 (List.mem_cons_self _ _), hl,
          Nat.not_le.mpr hc]
      obtain ⟨am, al, ac, an⟩ :=
        advance_of_moving { s with lostPositionTimestamp := i0.now } i0 hm hc
      have hex2 : ∃ j ∈ rest, i0.now + AUTODRIVE_MISSING_POSITION_TIMEOUT ≤ j.now := by
        obtain ⟨j, hj, hjt⟩ := hspan
        rcases List.mem_cons.mp hj with rfl | hj2
        · simp [AUTODRIVE_MISSING_POSITION_TIMEOUT] at hjt
        · exact ⟨j, hj2, hjt⟩
      obtain ⟨r1, r2, r3, r4⟩ := run_armed_no_signal i0.now h0 rest _ am ac al
        (fun j hj => ⟨habs j (List.mem_cons_of_mem _ hj), hge j hj,
          hrange j (List.mem_cons_of_mem _ hj)⟩) hex2
      simp only [AutoDriveMode.run, h1]
      refine ⟨r1, r2, ?_, ?_⟩
      · rw [List.count_append, an, r3]
      · rw [List.getLast?_append, r4]; rfl
    · refine run_armed_no_signal s.lostPositionTimestamp hl (i0 :: rest) s hm hc rfl ?_ ?_
      · intro j hj
        refine ⟨habs j hj, ?_, hrange j hj⟩
        rcases List.mem_cons.mp hj with rfl | hj2
        · exact harm
        · exact harm.trans (hge j hj2)
      · obtain ⟨j, hj, hjt⟩ := hspan
        exact ⟨j, hj, by omega⟩
  obtain ⟨k1, k2, k3, k4⟩ := key
  refine ⟨k1, k3, k4, ?_⟩
  intro t d
  have hrun : Reachable (s.run (i0 :: rest)).1 := reachable_run s hr (i0 :: rest) hrange
  have h := reachable_currentCommand_lt hrun
  generalize (s.run (i0 :: rest)).1 = q at *
  obtain ⟨ql, qm, qc⟩ := q
  simp only at k1 k2 h
  subst k1 k2
  simp [AutoDriveMode.loop, AutoDriveMode.advance, Nat.not_le.mpr h]

/-! ## Facts about rounding -/

theorem roundHalfEven_eq_of_abs_sub_lt (x : ℚ) (n : ℤ) (h : |x - n| < 1 / 2) :
    roundHalfEven x = n := by
  rw [abs_lt] at h
  obtain ⟨h1, h2⟩ := h
  rcases le_or_lt (n : ℚ) x with hle | hlt
  · have hf : ⌊x⌋ = n := by
      rw [Int.floor_eq_iff]
      constructor
      · exact hle
      · linarith
    unfold roundHalfEven
    rw [hf, if_pos (by linarith)]
  · have hf : ⌊x⌋ = n - 1 := by
      rw [Int.floor_eq_iff]
      push_cast
      constructor <;> linarith
    unfold roundHalfEven
    rw [hf]
    push_cast
    rw [if_neg (by linarith), if_pos (by linarith)]
    ring

theorem int_log_two_eq (q : ℚ) (e : ℤ) (h1 : (2 : ℚ) ^ e ≤ q) (h2 : q < (2 : ℚ) ^ (e + 1)) :
    Int.log 2 q = e := by
  have hq : 0 < q := lt_of_lt_of_le (by positivity) h1
  have ha : e ≤ Int.log 2 q := by
    rw [← Int.zpow_le_iff_le_log (by norm_num) hq]
    simpa using h1
  have hb : Int.log 2 q < e + 1 := by
    rw [← Int.lt_zpow_iff_log_lt (by norm_num) hq]
    simpa using h2
  omega

/-- How `roundToDouble` is evaluated away from ties: when `2 ^ e ≤ |q| < 2 ^ (e + 1)` and
`n` is an integer less than half a unit away from `q / 2 ^ k`, where
`k = max e (-1022) - 52`, the result is `n * 2 ^ k`, unless that has magnitude `2 ^ 1024`
or more. -/
theorem roundToDouble_of_round (q : ℚ) (e k n : ℤ) (h1 : (2 : ℚ) ^ e ≤ |q|)
    (h2 : |q| < (2 : ℚ) ^ (e + 1)) (hk : k = max e (-1022) - 52)
    (hn : |q / (2 : ℚ) ^ k - n| < 1 / 2) :
    roundToDouble q
      = if (2 : ℚ) ^ (1024 : ℕ) ≤ |(n : ℚ) * (2 : ℚ) ^ k| then none
        else some (n * (2 : ℚ) ^ k) := by
  have hq0 : q ≠ 0 := by
    intro h
    rw [h, abs_zero] at h1
    exact absurd h1 (not_le.mpr (by positivity))
  have hlog : Int.log 2 |q| = e := int_log_two_eq |q| e h1 h2
  have hulp : ulp q = (2 : ℚ) ^ k := by rw [ulp, hlog, hk]
  have hr : roundHalfEven (q / (2 : ℚ) ^ k) = n := roundHalfEven_eq_of_abs_sub_lt _ _ hn
  unfold roundToDouble
  simp only [hq0, if_false, hulp, hr]

/-- The same below the overflow threshold: with `e ≤ 1022` the result is finite. -/
theorem roundToDouble_eq (q : ℚ) (e k n : ℤ) (h1 : (2 : ℚ) ^ e ≤ |q|)
    (h2 : |q| < (2 : ℚ) ^ (e + 1)) (he : e ≤ 1022) (hk : k = max e (-1022) - 52)
    (hn : |q / (2 : ℚ) ^ k - n| < 1 / 2) :
    roundToDouble q = some (n * (2 : ℚ) ^ k) := by
  have hkpos : (0 : ℚ) < (2 : ℚ) ^ k := by positivity
  have hqk : |q / (2 : ℚ) ^ k| < (2 : ℚ) ^ (53 : ℕ) := by
    rw [abs_div, abs_of_pos hkpos, div_lt_iff₀ hkpos]
    calc |q| < (2 : ℚ) ^ (e + 1) := h2
      _ ≤ (2 : ℚ) ^ (k + 53) := by
          apply zpow_le_zpow_right₀ (by norm_num)
          omega
      _ = (2 : ℚ) ^ (53 : ℕ) * (2 : ℚ) ^ k := by
          rw [zpow_add₀ (by norm_num), mul_comm]; norm_cast
  have hnabs : |(n : ℚ)| ≤ (2 : ℚ) ^ (53 : ℕ) := by
    have h3 : |(n : ℚ)| < (2 : ℚ) ^ (53 : ℕ) + 1 := by
      have := abs_sub_abs_le_abs_sub (n : ℚ) (q / (2 : ℚ) ^ k)
      rw [abs_sub_comm] at this
      linarith
    have h4 : |n| < (2 : ℤ) ^ (53 : ℕ) + 1 := by exact_mod_cast h3
    have h5 : |n| ≤ (2 : ℤ) ^ (53 : ℕ) := by omega
    exact_mod_cast h5
  have hov : ¬ (2 : ℚ) ^ (1024 : ℕ) ≤ |(n : ℚ) * (2 : ℚ) ^ k| := by
    rw [not_le, abs_mul, abs_of_pos hkpos]
    calc |(n : ℚ)| * (2 : ℚ) ^ k ≤ (2 : ℚ) ^ (53 : ℕ) * (2 : ℚ) ^ k := by gcongr
      _ = (2 : ℚ) ^ (k + 53) := by
          rw [zpow_add₀ (by norm_num), mul_comm]; norm_cast
      _ ≤ (2 : ℚ) ^ (1023 : ℤ) := by
          apply zpow_le_zpow_right₀ (by norm_num)
          omega
      _ < (2 : ℚ) ^ (1024 : ℕ) := by
          rw [← zpow_natCast]
          apply zpow_lt_zpow_right₀ (by norm_num)
          norm_num
  rw [roundToDouble_of_round q e k n h1 h2 hk hn, if_neg hov]

@[simp]
theorem roundToDouble_zero : roundToDouble 0 = some 0 := by
  simp [roundToDouble]

theorem isDouble_one : isDouble 1 := by
  rw [isDouble, roundToDouble_eq 1 0 (-52) 4503599627370496 (by norm_num) (by norm_num)
    (by norm_num) (by decide) (by norm_num [abs_lt])]
  norm_num

theorem isDouble_tenth : isDouble tenth := by
  rw [isDouble, tenth, roundToDouble_eq _ (-4) (-56) 7205759403792794
    (by norm_num [abs_of_pos]) (by norm_num [abs_of_pos]) (by norm_num) (by decide)
    (by norm_num [abs_lt])]
  norm_num

/-- The number `0.1` of the source text is the `double` `tenth`. -/
theorem roundToDouble_decimal_tenth : roundToDouble 0.1 = some tenth := by
  rw [tenth, roundToDouble_eq _ (-4) (-56) 7205759403792794
    (by norm_num [abs_of_pos]) (by norm_num [abs_of_pos]) (by norm_num) (by decide)
    (by norm_num [abs_lt])]
  norm_num

/-- The subtraction `0.1 - 1.0` is rounded. -/
theorem roundToDouble_tenth_sub_one :
    roundToDouble (tenth - 1) = some (-(8106479329266893 / 9007199254740992)) := by
  rw [tenth, roundToDouble_eq _ (-1) (-53) (-8106479329266893)
    (by norm_num [abs_of_neg]) (by norm_num [abs_of_neg]) (by norm_num) (by decide)
    (by norm_num [abs_lt])]
  norm_num

/-- Every integer of magnitude below `2 ^ 53` is a binary64 number. -/
theorem isDouble_intCast (n : ℤ) (h : |n| < 2 ^ 53) : isDouble (n : ℚ) := by
  by_cases h0 : n = 0
  · subst h0; simp [isDouble]
  have hpos : (0 : ℚ) < |(n : ℚ)| := abs_pos.mpr (by exact_mod_cast h0)
  have hone : (1 : ℚ) ≤ |(n : ℚ)| := by
    have : (1 : ℤ) ≤ |n| := Int.one_le_abs h0
    exact_mod_cast this
  have hlt : |(n : ℚ)| < (2 : ℚ) ^ (53 : ℤ) := by
    have : ((|n| : ℤ) : ℚ) < ((2 ^ 53 : ℤ) : ℚ) := by exact_mod_cast h
    rw [Int.cast_abs] at this
    calc |(n : ℚ)| < ((2 ^ 53 : ℤ) : ℚ) := this
      _ = (2 : ℚ) ^ (53 : ℤ) := by norm_num
  have h1 : (2 : ℚ) ^ Int.log 2 |(n : ℚ)| ≤ |(n : ℚ)| := by
    simpa using Int.zpow_log_le_self (b := 2) (by norm_num) hpos
  have h2 : |(n : ℚ)| < (2 : ℚ) ^ (Int.log 2 |(n : ℚ)| + 1) := by
    simpa using Int.lt_zpow_succ_log_self (b := 2) (by norm_num) |(n : ℚ)|
  have he0 : 0 ≤ Int.log 2 |(n : ℚ)| := by
    rw [← Int.zpow_le_iff_le_log (by norm_num) hpos]
    simpa using hone
  have he1 : Int.log 2 |(n : ℚ)| < 53 := by
    rw [← Int.lt_zpow_iff_log_lt (by norm_num) hpos]
    simpa using hlt
  generalize Int.log 2 |(n : ℚ)| = e at h1 h2 he0 he1
  obtain ⟨m, hm⟩ : ∃ m : ℕ, (m : ℤ) = 52 - e := ⟨(52 - e).toNat, by omega⟩
  have hpow : (2 : ℚ) ^ (e - 52) = ((2 : ℚ) ^ m)⁻¹ := by
    rw [← zpow_natCast, hm, ← zpow_neg]; congr 1; omega
  have h2m : (2 : ℚ) ^ m ≠ 0 := by positivity
  rw [isDouble, roundToDouble_eq (n : ℚ) e (e - 52) (n * 2 ^ m) h1 h2 (by omega) (by omega)]
  · rw [hpow]; push_cast; field_simp
  · rw [hpow]; push_cast; field_simp

/-- The value `0.1 - 1.0` computed in `double` is a binary64 number. -/
theorem isDouble_tenth_sub_one : isDouble (-(8106479329266893 / 9007199254740992)) := by
  rw [isDouble, roundToDouble_eq _ (-1) (-53) (-8106479329266893)
    (by norm_num [abs_of_neg]) (by norm_num [abs_of_neg]) (by norm_num) (by decide)
    (by norm_num [abs_lt])]
  norm_num

/-- The sum `1.0 + (0.1 - 1.0)` is exact in `double`, and it is not `0.1`. -/
theorem roundToDouble_one_add :
    roundToDouble (1 + -(8106479329266893 / 9007199254740992))
      = some (900719925474099 / 9007199254740992) := by
  rw [roundToDouble_eq _ (-4) (-56) 7205759403792792
    (by norm_num [abs_of_pos]) (by norm_num [abs_of_pos]) (by norm_num) (by decide)
    (by norm_num [abs_lt])]
  norm_num

theorem dadd_some (a b : ℚ) : dadd (some a) (some b) = roundToDouble (a + b) := rfl

theorem dsub_some (a b : ℚ) : dsub (some a) (some b) = roundToDouble (a - b) := rfl

theorem dmul_some (a b : ℚ) : dmul (some a) (some b) = roundToDouble (a * b) := rfl

/-- Evaluation of `roundToDouble` with the result written out. -/
theorem roundToDouble_eval (q r : ℚ) (e k n : ℤ) (h1 : (2 : ℚ) ^ e ≤ |q|)
    (h2 : |q| < (2 : ℚ) ^ (e + 1)) (he : e ≤ 1022) (hk : k = max e (-1022) - 52)
    (hn : |q / (2 : ℚ) ^ k - n| < 1 / 2) (hr : r = n * (2 : ℚ) ^ k) :
    roundToDouble q = some r := by
  rw [hr]
  exact roundToDouble_eq q e k n h1 h2 he hk hn

/-- An exact result that is an integer of magnitude below `2 ^ 53` is not changed by
rounding. -/
theorem roundToDouble_int (q r : ℚ) (n : ℤ) (hq : q = n) (hr : r = n) (hn : |n| < 2 ^ 53) :
    roundToDouble q = some r := by
  rw [hq, hr]
  exact isDouble_intCast n hn

/-! ## The swap loop reverses -/

theorem swapLoop_prefix {α : Type} (l : List α) (m : Nat) (hm : 2 * m ≤ l.length) :
    ((List.range m).foldl (fun a i => swapAt a i (l.length - i - 1)) l).length = l.length
    ∧ ∀ j, j < l.length →
      ((List.range m).foldl (fun a i => swapAt a i (l.length - i - 1)) l)[j]?
        = if j < m ∨ l.length - m ≤ j then l[l.length - 1 - j]? else l[j]? := by
  induction m with
  | zero =>
    refine ⟨rfl, ?_⟩
    intro j hj
    have : ¬ (j < 0 ∨ l.length - 0 ≤ j) := by omega
    simp only [List.range_zero, List.foldl_nil, if_neg this]
  | succ m ih =>
    obtain ⟨hlen, hget⟩ := ih (by omega)
    rw [List.range_succ, List.foldl_append, List.foldl_cons, List.foldl_nil]
    generalize (List.range m).foldl (fun a i => swapAt a i (l.length - i - 1)) l = a at hlen hget
    have hm1 : m < l.length := by omega
    have hm2 : l.length - m - 1 < l.length := by omega
    have h1 : a[m]? = some l[m] := by
      rw [hget m (by omega), if_neg (by omega), List.getElem?_eq_getElem]
    have h2 : a[l.length - m - 1]? = some l[l.length - m - 1] := by
      rw [hget _ (by omega), if_neg (by omega), List.getElem?_eq_getElem]
    simp only [swapAt, h1, h2]
    refine ⟨by simp [hlen], ?_⟩
    intro j hj
    have e1 : some l[m] = l[m]? := (List.getElem?_eq_getElem hm1).symm
    have e2 : some l[l.length - m - 1] = l[l.length - m - 1]? :=
      (List.getElem?_eq_getElem hm2).symm
    rw [List.getElem?_set, List.getElem?_set, hget j hj]
    simp only [List.length_set, hlen, e1, e2]
    by_cases hj1 : l.length - m - 1 = j
    · rw [if_pos hj1, if_pos (by omega), if_pos (by omega)]
      congr 1
      omega
    · rw [if_neg hj1]
      by_cases hj2 : m = j
      · rw [if_pos hj2, if_pos (by omega), if_pos (by omega)]
        congr 1
        omega
      · rw [if_neg hj2]
        by_cases hc : j < m ∨ l.length - m ≤ j
        · rw [if_pos hc, if_pos (by omega)]
        · rw [if_neg hc, if_neg (by omega)]

/-- The swap loop run over the whole list reverses it. -/
theorem swapLoop_eq_reverse {α : Type} (l : List α) : swapLoop l.length l = l.reverse := by
  obtain ⟨hlen, hget⟩ := swapLoop_prefix l (l.length / 2) (by omega)
  apply List.ext_getElem?
  intro j
  by_cases hj : j < l.length
  · rw [swapLoop, hget j hj, List.getElem?_reverse hj]
    by_cases hc : j < l.length / 2 ∨ l.length - l.length / 2 ≤ j
    · rw [if_pos hc]
    · rw [if_neg hc]
      congr 1
      omega
  · rw [List.getElem?_eq_none (by rw [swapLoop, hlen]; omega),
      List.getElem?_eq_none (by rw [List.length_reverse]; omega)]

/-! ## The waypoints, coordinate by coordinate -/

theorem scaleX_0 : dmul (roundToDouble 0) (some 1100) = some 0 := by
  rw [roundToDouble_zero, dmul_some, zero_mul, roundToDouble_zero]

theorem scaleY_0 : dsub (dmul (roundToDouble 0) (some 900)) (some 2750) = some (-2750) := by
  rw [roundToDouble_zero, dmul_some, zero_mul, roundToDouble_zero, dsub_some]
  exact roundToDouble_int _ _ (-2750) (by norm_num) (by norm_num) (by norm_num)

theorem scaleX_0_1 : dmul (roundToDouble 0.1) (some 1100) = some 110 := by
  rw [roundToDouble_eval 0.1 (3602879701896397 / 36028797018963968) (-4) (-56) 7205759403792794
    (by norm_num [abs_of_pos]) (by norm_num [abs_of_pos]) (by norm_num) (by decide)
    (by norm_num [abs_lt]) (by norm_num)]
  rw [dmul_some]
  exact roundToDouble_eval _ _ (6) (-46) 7740561859543040
    (by norm_num [abs_of_pos]) (by norm_num [abs_of_pos]) (by norm_num) (by decide)
    (by norm_num [abs_lt]) (by norm_num)

theorem scaleX_0_2 : dmul (roundToDouble 0.2) (some 1100) = some 220 := by
  rw [roundToDouble_eval 0.2 (3602879701896397 / 18014398509481984) (-3) (-55) 7205759403792794
    (by norm_num [abs_of_pos]) (by norm_num [abs_of_pos]) (by norm_num) (by decide)
    (by norm_num [abs_lt]) (by norm_num)]
  rw [dmul_some]
  exact roundToDouble_eval _ _ (7) (-45) 7740561859543040
    (by norm_num [abs_of_pos]) (by norm_num [abs_of_pos]) (by norm_num) (by decide)
    (by norm_num [abs_lt]) (by norm_num)

theorem scaleX_0_5 : dmul (roundToDouble 0.5) (some 1100) = some 550 := by
  rw [roundToDouble_eval 0.5 (1 / 2) (-1) (-53) 4503599627370496
    (by norm_num [abs_of_pos]) (by norm_num [abs_of_pos]) (by norm_num) (by decide)
    (by norm_num [abs_lt]) (by norm_num)]
  rw [dmul_some]
  exact roundToDouble_eval _ _ (9) (-43) 4837851162214400
    (by norm_num [abs_of_pos]) (by norm_num [abs_of_pos]) (by norm_num) (by decide)
    (by norm_num [abs_lt]) (by norm_num)

theorem scaleX_0_6 : dmul (roundToDouble 0.6) (some 1100) = some 660 := by
  rw [roundToDouble_eval 0.6 (5404319552844595 / 9007199254740992) (-1) (-53) 5404319552844595
    (by norm_num [abs_of_pos]) (by norm_num [abs_of_pos]) (by norm_num) (by decide)
    (by norm_num [abs_lt]) (by norm_num)]
  rw [dmul_some]
  exact roundToDouble_eval _ _ (9) (-43) 5805421394657280
    (by norm_num [abs_of_pos]) (by norm_num [abs_of_pos]) (by norm_num) (by decide)
    (by norm_num [abs_lt]) (by norm_num)

theorem scaleX_neg_0_1 : dmul (roundToDouble (-0.1)) (some 1100) = some (-110) := by
  rw [roundToDouble_eval (-0.1) (-(3602879701896397 / 36028797018963968)) (-4) (-56) (-7205759403792794)
    (by norm_num [abs_of_neg]) (by norm_num [abs_of_neg]) (by norm_num) (by decide)
    (by norm_num [abs_lt]) (by norm_num)]
  rw [dmul_some]
  exact roundToDouble_eval _ _ (6) (-46) (-7740561859543040)
    (by norm_num [abs_of_neg]) (by norm_num [abs_of_neg]) (by norm_num) (by decide)
    (by norm_num [abs_lt]) (by norm_num)

theorem scaleX_neg_0_2 : dmul (roundToDouble (-0.2)) (some 1100) = some (-220) := by
  rw [roundToDouble_eval (-0.2) (-(3602879701896397 / 18014398509481984)) (-3) (-55) (-7205759403792794)
    (by norm_num [abs_of_neg]) (by norm_num [abs_of_neg]) (by norm_num) (by decide)
    (by norm_num [abs_lt]) (by norm_num)]
  rw [dmul_some]
  exact roundToDouble_eval _ _ (7) (-45) (-7740561859543040)
    (by norm_num [abs_of_neg]) (by norm_num [abs_of_neg]) (by norm_num) (by decide)
    (by norm_num [abs_lt]) (by norm_num)

theorem scaleX_neg_0_5 : dmul (roundToDouble (-0.5)) (some 1100) = some (-550) := by
  rw [roundToDouble_eval (-0.5) (-(1 / 2)) (-1) (-53) (-4503599627370496)
    (by norm_num [abs_of_neg]) (by norm_num [abs_of_neg]) (by norm_num) (by decide)
    (by norm_num [abs_lt]) (by norm_num)]
  rw [dmul_some]
  exact roundToDouble_eval _ _ (9) (-43) (-4837851162214400)
    (by norm_num [abs_of_neg]) (by norm_num [abs_of_neg]) (by norm_num) (by decide)
    (by norm_num [abs_lt]) (by norm_num)

theorem scaleX_neg_0_6 : dmul (roundToDouble (-0.6)) (some 1100) = some (-660) := by
  rw [roundToDouble_eval (-0.6) (-(5404319552844595 / 9007199254740992)) (-1) (-53) (-5404319552844595)
    (by norm_num [abs_of_neg]) (by norm_num [abs_of_neg]) (by norm_num) (by decide)
    (by norm_num [abs_lt]) (by norm_num)]
  rw [dmul_some]
  exact roundToDouble_eval _ _ (9) (-43) (-5805421394657280)
    (by norm_num [abs_of_neg]) (by norm_num [abs_of_neg]) (by norm_num) (by decide)
    (by norm_num [abs_lt]) (by norm_num)

theorem scaleY_0_4 :
    dsub (dmul (roundToDouble 0.4) (some 900)) (some 2750) = some (-2390) := by
  rw [roundToDouble_eval 0.4 (3602879701896397 / 9007199254740992) (-2) (-54) 7205759403792794
    (by norm_num [abs_of_pos]) (by norm_num [abs_of_pos]) (by norm_num) (by decide)
    (by norm_num [abs_lt]) (by norm_num)]
  rw [dmul_some]
  rw [roundToDouble_eval ((3602879701896397 / 9007199254740992) * 900) 360 (8) (-44) 6333186975989760
    (by norm_num [abs_of_pos]) (by norm_num [abs_of_pos]) (by norm_num) (by decide)
    (by norm_num [abs_lt]) (by norm_num)]
  rw [dsub_some]
  exact roundToDouble_int _ _ (-2390) (by norm_num) (by norm_num) (by norm_num)

theorem scaleY_0_5 :
    dsub (dmul (roundToDouble 0.5) (some 900)) (some 2750) = some (-2300) := by
  rw [roundToDouble_eval 0.5 (1 / 2) (-1) (-53) 4503599627370496
    (by norm_num [abs_of_pos]) (by norm_num [abs_of_pos]) (by norm_num) (by decide)
    (by norm_num [abs_lt]) (by norm_num)]
  rw [dmul_some]
  rw [roundToDouble_eval ((1 / 2) * 900) 450 (8) (-44) 7916483719987200
    (by norm_num [abs_of_pos]) (by norm_num [abs_of_pos]) (by norm_num) (by decide)
    (by norm_num [abs_lt]) (by norm_num)]
  rw [dsub_some]
  exact roundToDouble_int _ _ (-2300) (by norm_num) (by norm_num) (by norm_num)

theorem scaleY_neg_0_4 :
    dsub (dmul (roundToDouble (-0.4)) (some 900)) (some 2750) = some (-3110) := by
  rw [roundToDouble_eval (-0.4) (-(3602879701896397 / 9007199254740992)) (-2) (-54) (-7205759403792794)
    (by norm_num [abs_of_neg]) (by norm_num [abs_of_neg]) (by norm_num) (by decide)
    (by norm_num [abs_lt]) (by norm_num)]
  rw [dmul_some]
  rw [roundToDouble_eval ((-(3602879701896397 / 9007199254740992)) * 900) (-360) (8) (-44) (-6333186975989760)
    (by norm_num [abs_of_neg]) (by norm_num [abs_of_neg]) (by norm_num) (by decide)
    (by norm_num [abs_lt]) (by norm_num)]
  rw [dsub_some]
  exact roundToDouble_int _ _ (-3110) (by norm_num) (by norm_num) (by norm_num)

theorem scaleY_neg_0_5 :
    dsub (dmul (roundToDouble (-0.5)) (some 900)) (some 2750) = some (-3200) := by
  rw [roundToDouble_eval (-0.5) (-(1 / 2)) (-1) (-53) (-4503599627370496)
    (by norm_num [abs_of_neg]) (by norm_num [abs_of_neg]) (by norm_num) (by decide)
    (by norm_num [abs_lt]) (by norm_num)]
  rw [dmul_some]
  rw [roundToDouble_eval ((-(1 / 2)) * 900) (-450) (8) (-44) (-7916483719987200)
    (by norm_num [abs_of_neg]) (by norm_num [abs_of_neg]) (by norm_num) (by decide)
    (by norm_num [abs_lt]) (by norm_num)]
  rw [dsub_some]
  exact roundToDouble_int _ _ (-3200) (by norm_num) (by norm_num) (by norm_num)

theorem offsetX_leader_neg_660 : dsub (some (-660)) ZIPPY_SPACING_MM = some (-720) := by
  rw [ZIPPY_SPACING_MM, dsub_some]
  exact roundToDouble_int _ _ (-720) (by norm_num) (by norm_num) (by norm_num)

theorem offsetX_follower_neg_660 : dadd (some (-660)) ZIPPY_SPACING_MM = some (-600) := by
  rw [ZIPPY_SPACING_MM, dadd_some]
  exact roundToDouble_int _ _ (-600) (by norm_num) (by norm_num) (by norm_num)

theorem offsetX_leader_neg_550 : dsub (some (-550)) ZIPPY_SPACING_MM = some (-610) := by
  rw [ZIPPY_SPACING_MM, dsub_some]
  exact roundToDouble_int _ _ (-610) (by norm_num) (by norm_num) (by norm_num)

theorem offsetX_follower_neg_550 : dadd (some (-550)) ZIPPY_SPACING_MM = some (-490) := by
  rw [ZIPPY_SPACING_MM, dadd_some]
  exact roundToDouble_int _ _ (-490) (by norm_num) (by norm_num) (by norm_num)

theorem offsetX_leader_neg_220 : dsub (some (-220)) ZIPPY_SPACING_MM = some (-280) := by
  rw [ZIPPY_SPACING_MM, dsub_some]
  exact roundToDouble_int _ _ (-280) (by norm_num) (by norm_num) (by norm_num)

theorem offsetX_follower_neg_220 : dadd (some (-220)) ZIPPY_SPACING_MM = some (-160) := by
  rw [ZIPPY_SPACING_MM, dadd_some]
  exact roundToDouble_int _ _ (-160) (by norm_num) (by norm_num) (by norm_num)

theorem offsetX_leader_neg_110 : dsub (some (-110)) ZIPPY_SPACING_MM = some (-170) := by
  rw [ZIPPY_SPACING_MM, dsub_some]
  exact roundToDouble_int _ _ (-170) (by norm_num) (by norm_num) (by norm_num)

theorem offsetX_follower_neg_110 : dadd (some (-110)) ZIPPY_SPACING_MM = some (-50) := by
  rw [ZIPPY_SPACING_MM, dadd_some]
  exact roundToDouble_int _ _ (-50) (by norm_num) (by norm_num) (by norm_num)

theorem offsetX_leader_0 : dsub (some 0) ZIPPY_SPACING_MM = some (-60) := by
  rw [ZIPPY_SPACING_MM, dsub_some]
  exact roundToDouble_int _ _ (-60) (by norm_num) (by norm_num) (by norm_num)

theorem offsetX_follower_0 : dadd (some 0) ZIPPY_SPACING_MM = some 60 := by
  rw [ZIPPY_SPACING_MM, dadd_some]
  exact roundToDouble_int _ _ 60 (by norm_num) (by norm_num) (by norm_num)

theorem offsetX_leader_110 : dsub (some 110) ZIPPY_SPACING_MM = some 50 := by
  rw [ZIPPY_SPACING_MM, dsub_some]
  exact roundToDouble_int _ _ 50 (by norm_num) (by norm_num) (by norm_num)

theorem offsetX_follower_110 : dadd (some 110) ZIPPY_SPACING_MM = some 170 := by
  rw [ZIPPY_SPACING_MM, dadd_some]
  exact roundToDouble_int _ _ 170 (by norm_num) (by norm_num) (by norm_num)

theorem offsetX_leader_220 : dsub (some 220) ZIPPY_SPACING_MM = some 160 := by
  rw [ZIPPY_SPACING_MM, dsub_some]
  exact roundToDouble_int _ _ 160 (by norm_num) (by norm_num) (by norm_num)

theorem offsetX_follower_220 : dadd (some 220) ZIPPY_SPACING_MM = some 280 := by
  rw [ZIPPY_SPACING_MM, dadd_some]
  exact roundToDouble_int _ _ 280 (by norm_num) (by norm_num) (by norm_num)

theorem offsetX_leader_550 : dsub (some 550) ZIPPY_SPACING_MM = some 490 := by
  rw [ZIPPY_SPACING_MM, dsub_some]
  exact roundToDouble_int _ _ 490 (by norm_num) (by norm_num) (by norm_num)

theorem offsetX_follower_550 : dadd (some 550) ZIPPY_SPACING_MM = some 610 := by
  rw [ZIPPY_SPACING_MM, dadd_some]
  exact roundToDouble_int _ _ 610 (by norm_num) (by norm_num) (by norm_num)

theorem offsetX_leader_660 : dsub (some 660) ZIPPY_SPACING_MM = some 600 := by
  rw [ZIPPY_SPACING_MM, dsub_some]
  exact roundToDouble_int _ _ 600 (by norm_num) (by norm_num) (by norm_num)

theorem offsetX_follower_660 : dadd (some 660) ZIPPY_SPACING_MM = some 720 := by
  rw [ZIPPY_SPACING_MM, dadd_some]
  exact roundToDouble_int _ _ 720 (by norm_num) (by norm_num) (by norm_num)

theorem offsetY_leader_neg_3200 : dsub (some (-3200)) ZIPPY_SPACING_MM = some (-3260) := by
  rw [ZIPPY_SPACING_MM, dsub_some]
  exact roundToDouble_int _ _ (-3260) (by norm_num) (by norm_num) (by norm_num)

theorem offsetY_follower_neg_3200 : dadd (some (-3200)) ZIPPY_SPACING_MM = some (-3140) := by
  rw [ZIPPY_SPACING_MM, dadd_some]
  exact roundToDouble_int _ _ (-3140) (by norm_num) (by norm_num) (by norm_num)

theorem offsetY_leader_neg_3110 : dsub (some (-3110)) ZIPPY_SPACING_MM = some (-3170) := by
  rw [ZIPPY_SPACING_MM, dsub_some]
  exact roundToDouble_int _ _ (-3170) (by norm_num) (by norm_num) (by norm_num)

theorem offsetY_follower_neg_3110 : dadd (some (-3110)) ZIPPY_SPACING_MM = some (-3050) := by
  rw [ZIPPY_SPACING_MM, dadd_some]
  exact roundToDouble_int _ _ (-3050) (by norm_num) (by norm_num) (by norm_num)

theorem offsetY_leader_neg_2750 : dsub (some (-2750)) ZIPPY_SPACING_MM = some (-2810) := by
  rw [ZIPPY_SPACING_MM, dsub_some]
  exact roundToDouble_int _ _ (-2810) (by norm_num) (by norm_num) (by norm_num)

theorem offsetY_follower_neg_2750 : dadd (some (-2750)) ZIPPY_SPACING_MM = some (-2690) := by
  rw [ZIPPY_SPACING_MM, dadd_some]
  exact roundToDouble_int _ _ (-2690) (by norm_num) (by norm_num) (by norm_num)

theorem offsetY_leader_neg_2390 : dsub (some (-2390)) ZIPPY_SPACING_MM = some (-2450) := by
  rw [ZIPPY_SPACING_MM, dsub_some]
  exact roundToDouble_int _ _ (-2450) (by norm_num) (by norm_num) (by norm_num)

theorem offsetY_follower_neg_2390 : dadd (some (-2390)) ZIPPY_SPACING_MM = some (-2330) := by
  rw [ZIPPY_SPACING_MM, dadd_some]
  exact roundToDouble_int _ _ (-2330) (by norm_num) (by norm_num) (by norm_num)

theorem offsetY_leader_neg_2300 : dsub (some (-2300)) ZIPPY_SPACING_MM = some (-2360) := by
  rw [ZIPPY_SPACING_MM, dsub_some]
  exact roundToDouble_int _ _ (-2360) (by norm_num) (by norm_num) (by norm_num)

theorem offsetY_follower_neg_2300 : dadd (some (-2300)) ZIPPY_SPACING_MM = some (-2240) := by
  rw [ZIPPY_SPACING_MM, dadd_some]
  exact roundToDouble_int _ _ (-2240) (by norm_num) (by norm_num) (by norm_num)

theorem leaderPath_eq : pathPoints false = leaderWaypoints := by
  simp only [pathPoints, buildPath, sourcePoints, figure8, leaderWaypoints, List.map,
    scalePoint, offsetPoint, Bool.false_eq_true, if_false,
    scaleX_0, scaleY_0, scaleX_0_1, scaleX_0_2,
    scaleX_0_5, scaleX_0_6, scaleX_neg_0_1, scaleX_neg_0_2,
    scaleX_neg_0_5, scaleX_neg_0_6, scaleY_0_4, scaleY_0_5,
    scaleY_neg_0_4, scaleY_neg_0_5, offsetX_leader_neg_660, offsetX_follower_neg_660,
    offsetX_leader_neg_550, offsetX_follower_neg_550, offsetX_leader_neg_220, offsetX_follower_neg_220,
    offsetX_leader_neg_110, offsetX_follower_neg_110, offsetX_leader_0, offsetX_follower_0,
    offsetX_leader_110, offsetX_follower_110, offsetX_leader_220, offsetX_follower_220,
    offsetX_leader_550, offsetX_follower_550, offsetX_leader_660, offsetX_follower_660,
    offsetY_leader_neg_3200, offsetY_follower_neg_3200, offsetY_leader_neg_3110, offsetY_follower_neg_3110,
    offsetY_leader_neg_2750, offsetY_follower_neg_2750, offsetY_leader_neg_2390, offsetY_follower_neg_2390,
    offsetY_leader_neg_2300, offsetY_follower_neg_2300]

theorem followerPath_eq : pathPoints true = followerWaypoints := by
  have hlen : PATH_POINT_COUNT
      = (sourcePoints.map fun p => offsetPoint true (scalePoint p)).length := by
    simp [sourcePoints, figure8, PATH_POINT_COUNT]
  rw [pathPoints, buildPath, if_pos rfl, hlen, swapLoop_eq_reverse]
  simp only [sourcePoints, figure8, followerWaypoints, List.map,
    scalePoint, offsetPoint, if_true,
    scaleX_0, scaleY_0, scaleX_0_1, scaleX_0_2,
    scaleX_0_5, scaleX_0_6, scaleX_neg_0_1, scaleX_neg_0_2,
    scaleX_neg_0_5, scaleX_neg_0_6, scaleY_0_4, scaleY_0_5,
    scaleY_neg_0_4, scaleY_neg_0_5, offsetX_leader_neg_660, offsetX_follower_neg_660,
    offsetX_leader_neg_550, offsetX_follower_neg_550, offsetX_leader_neg_220, offsetX_follower_neg_220,
    offsetX_leader_neg_110, offsetX_follower_neg_110, offsetX_leader_0, offsetX_follower_0,
    offsetX_leader_110, offsetX_follower_110, offsetX_leader_220, offsetX_follower_220,
    offsetX_leader_550, offsetX_follower_550, offsetX_leader_660, offsetX_follower_660,
    offsetY_leader_neg_3200, offsetY_follower_neg_3200, offsetY_leader_neg_3110, offsetY_follower_neg_3110,
    offsetY_leader_neg_2750, offsetY_follower_neg_2750, offsetY_leader_neg_2390, offsetY_follower_neg_2390,
    offsetY_leader_neg_2300, offsetY_follower_neg_2300]
  rfl

/-- The number `1.5` is a binary64 number. -/
theorem isDouble_threeHalves : isDouble (3 / 2) :=
  roundToDouble_eval _ _ 0 (-52) 6755399441055744
    (by norm_num [abs_of_pos]) (by norm_num [abs_of_pos]) (by norm_num) (by decide)
    (by norm_num [abs_lt]) (by norm_num)

/-- The subtraction `1.5 - 0.1` is rounded. -/
theorem roundToDouble_threeHalves_sub_tenth :
    roundToDouble (3 / 2 - tenth) = some (3152519739159347 / 2251799813685248) := by
  rw [tenth]
  exact roundToDouble_eval _ _ 0 (-52) 6305039478318694
    (by norm_num [abs_of_pos]) (by norm_num [abs_of_pos]) (by norm_num) (by decide)
    (by norm_num [abs_lt]) (by norm_num)

/-- Halving `1.5 - 0.1` is exact. -/
theorem roundToDouble_half_diff :
    roundToDouble (3152519739159347 / 2251799813685248 * (1 / 2))
      = some (3152519739159347 / 4503599627370496) :=
  roundToDouble_eval _ _ (-1) (-53) 6305039478318694
    (by norm_num [abs_of_pos]) (by norm_num [abs_of_pos]) (by norm_num) (by decide)
    (by norm_num [abs_lt]) (by norm_num)

/-- The sum `0.1 + (1.5 - 0.1) * 0.5` is rounded to 0.7999999999999999. -/
theorem roundToDouble_tenth_add :
    roundToDouble (tenth + 3152519739159347 / 4503599627370496)
      = some (7205759403792793 / 9007199254740992) := by
  rw [tenth]
  exact roundToDouble_eval _ _ (-1) (-53) 7205759403792793
    (by norm_num [abs_of_pos]) (by norm_num [abs_of_pos]) (by norm_num) (by decide)
    (by norm_num [abs_lt]) (by norm_num)

theorem isDouble_huge : isDouble huge := by
  rw [isDouble, huge, roundToDouble_of_round _ 1023 971 4503599627370496
    (by norm_num [abs_of_pos]) (by norm_num [abs_of_pos]) (by decide)
    (by norm_num [abs_lt]), if_neg (by norm_num [abs_of_pos])]
  norm_num

theorem isDouble_neg_huge : isDouble (-huge) := by
  rw [isDouble, huge, roundToDouble_of_round _ 1023 971 (-4503599627370496)
    (by norm_num) (by norm_num) (by decide)
    (by norm_num [abs_lt]), if_neg (by norm_num)]
  norm_num

/-- The subtraction `2 ^ 1023 - (-2 ^ 1023)` overflows. -/
theorem roundToDouble_huge_sub : roundToDouble (huge - -huge) = none := by
  rw [huge, roundToDouble_of_round _ 1024 972 4503599627370496
    (by norm_num [abs_of_pos]) (by norm_num [abs_of_pos]) (by decide)
    (by norm_num [abs_lt]), if_pos (by norm_num [abs_of_pos])]

/-! ## Facts about the interpolation `s + (g - s) * t` in `double` -/

/-- At `t = 0` the interpolation gives the start, when `g - s` is finite. -/
theorem interpolate_zero (s g : ℚ) (hs : isDouble s)
    (hfin : dsub (some g) (some s) ≠ none) :
    dadd (some s) (dmul (dsub (some g) (some s)) (some 0)) = some s := by
  cases hd : dsub (some g) (some s) with
  | none => exact absurd hd hfin
  | some d =>
    rw [dmul_some, mul_zero, roundToDouble_zero, dadd_some, add_zero]
    exact hs

/-- At `t = 1` the interpolation gives the target, when `g - s` is computed exactly. -/
theorem interpolate_one (s g : ℚ) (hg : isDouble g) (hd : isDouble (g - s)) :
    dadd (some s) (dmul (dsub (some g) (some s)) (some 1)) = some g := by
  simp only [dadd, dmul, dsub, Option.some_bind]
  rw [hd]
  simp only [Option.some_bind, mul_one]
  rw [hd]
  simp only [Option.some_bind, add_sub_cancel]
  exact hg

/-- At `t = 0.5` the interpolation gives the midpoint, when `g - s`, its half and the
midpoint are binary64 numbers. -/
theorem interpolate_half (s g : ℚ) (hd : isDouble (g - s))
    (hh : isDouble ((g - s) * (1 / 2))) (hm : isDouble ((s + g) / 2)) :
    dadd (some s) (dmul (dsub (some g) (some s)) (some (1 / 2))) = some ((s + g) / 2) := by
  simp only [dadd, dmul, dsub, Option.some_bind]
  rw [hd]
  simp only [Option.some_bind]
  rw [hh]
  simp only [Option.some_bind]
  rw [show s + (g - s) * (1 / 2) = (s + g) / 2 by ring]
  exact hm

/-! ## Claims -/

/-- C1 (watchdog stop). In every reachable state that is moving with the watchdog armed
(`lostPositionTimestamp ≠ 0`), a tick without signal at which
`currentTime - lostPositionTimestamp ≥ 200` makes exactly one call, `zippy->stop()`,
sets `moving` to false, clears `lostPositionTimestamp` and leaves `currentCommand`
unchanged; no command `loop` or `start` is called. -/
theorem C1_watchdog_stop (s : AutoDriveMode) (i : Tick) (hr : Reachable s)
    (hm : s.moving = true) (hs : i.signal = false) (ha : s.lostPositionTimestamp ≠ 0)
    (ht : AUTODRIVE_MISSING_POSITION_TIMEOUT ≤ ulongSub i.now s.lostPositionTimestamp) :
    s.loop i = ({ lostPositionTimestamp := 0, moving := false,
                  currentCommand := s.currentCommand }, [Call.stop]) := by
  have hc := reachable_currentCommand_lt hr
  simp [AutoDriveMode.loop, hm, hs, ha, ht, Nat.not_le.mpr hc]

/-- C1 at the spec's example: armed at 1000, the tick at 1200 stops. -/
theorem C1_watchdog_stop_witness :
    armedAt1000.loop ⟨false, 1200, true⟩
      = ({ lostPositionTimestamp := 0, moving := false, currentCommand := 0 },
          [Call.stop]) :=
  C1_watchdog_stop armedAt1000 ⟨false, 1200, true⟩ reachable_armedAt1000 rfl rfl
    (by decide) (by decide)

/-- C2 (tolerance of one), evaluated where arming fails: in the reachable moving state
with the watchdog unarmed, a tick without signal at time 0 advances the command and
does not stop, but stores 0 in `lostPositionTimestamp`, which is the value that means
"not armed": after the tick the watchdog is still unarmed. (At every other tick time the
watchdog is armed, see `tolerance_of_one`.) -/
theorem C2_arming_at_time_zero_is_lost :
    Reachable startedAt0 ∧ startedAt0.moving = true
      ∧ startedAt0.lostPositionTimestamp = 0
      ∧ startedAt0.loop ⟨false, 0, false⟩ = (startedAt0, [Call.cmdLoop 0 0])
      ∧ (startedAt0.loop ⟨false, 0, false⟩).1.lostPositionTimestamp = 0 :=
  ⟨reachable_startedAt0, rfl, rfl, by decide, by decide⟩

/-- C3 (sustained loss), evaluated where it fails: from the reachable moving state with
the watchdog unarmed, the two ticks without signal at times 0 and 200 span 200 time
units, yet no `stop()` is called and the robot is still moving afterwards: the tick at
time 0 stored the timestamp 0, which means "not armed", so the tick at 200 only arms
the watchdog. -/
theorem C3_loss_from_time_zero_does_not_stop :
    Reachable startedAt0 ∧ startedAt0.moving = true
      ∧ startedAt0.run [⟨false, 0, false⟩, ⟨false, 200, false⟩]
          = ({ lostPositionTimestamp := 200, moving := true, currentCommand := 0 },
              [Call.cmdLoop 0 0, Call.cmdLoop 0 200])
      ∧ (startedAt0.run [⟨false, 0, false⟩, ⟨false, 200, false⟩]).2.count Call.stop = 0 :=
  ⟨reachable_startedAt0, rfl, by decide, by decide⟩

/-- C4 (idle start). In every reachable state that is not moving, a tick with signal
sets `moving`, sets `currentCommand` to 0, leaves `lostPositionTimestamp` cleared and
makes exactly one call, `commands[0]->start(currentTime)`. -/
theorem C4_idle_start (s : AutoDriveMode) (i : Tick) (hr : Reachable s)
    (hm : s.moving = false) (hs : i.signal = true) :
    s.loop i = ({ lostPositionTimestamp := 0, moving := true, currentCommand := 0 },
                [Call.cmdStart 0 i.now]) := by
  have hc := reachable_currentCommand_lt hr
  simp [AutoDriveMode.loop, AutoDriveMode.advance, hm, hs, Nat.not_le.mpr hc]

/-- C4 at the constructor's state with a tick at time 7. -/
theorem C4_idle_start_witness :
    AutoDriveMode.init.loop ⟨true, 7, false⟩
      = ({ lostPositionTimestamp := 0, moving := true, currentCommand := 0 },
          [Call.cmdStart 0 7]) :=
  C4_idle_start AutoDriveMode.init ⟨true, 7, false⟩ Reachable.init rfl rfl

/-- C5 (idle without signal is inert). In every state that is not moving, a tick
without signal returns the same state and makes no call, and so does every run of
such ticks. -/
theorem C5_idle_no_signal_inert (s : AutoDriveMode) (hm : s.moving = false) :
    (∀ i : Tick, i.signal = false → s.loop i = (s, []))
      ∧ (∀ ticks : List Tick, (∀ i ∈ ticks, i.signal = false) → s.run ticks = (s, [])) :=
  ⟨fun i hs => loop_idle_no_signal s i hm hs, run_idle_no_signal s hm⟩

/-- C5 at the constructor's state: one tick, and a run of three ticks, without signal. -/
theorem C5_idle_no_signal_inert_witness :
    AutoDriveMode.init.loop ⟨false, 5, true⟩ = (AutoDriveMode.init, [])
      ∧ AutoDriveMode.init.run [⟨false, 5, true⟩, ⟨false, 300, false⟩, ⟨false, 900, true⟩]
          = (AutoDriveMode.init, []) :=
  ⟨(C5_idle_no_signal_inert AutoDriveMode.init rfl).1 ⟨false, 5, true⟩ rfl,
   (C5_idle_no_signal_inert AutoDriveMode.init rfl).2 _ (by decide)⟩

/-- C6 (gap below the timeout is tolerated). In every reachable moving state with the
watchdog armed at `a = lostPositionTimestamp`, a tick without signal at a time `now`
with `a ≤ now` and `now - a < 200` keeps `moving` true, keeps the timestamp `a`, does
not call `stop()`, and first calls `loop(now)` on the active command. -/
theorem C6_gap_below_timeout (s : AutoDriveMode) (i : Tick) (hr : Reachable s)
    (hm : s.moving = true) (hs : i.signal = false) (ha : s.lostPositionTimestamp ≠ 0)
    (hle : s.lostPositionTimestamp ≤ i.now) (hnow : i.now < ULONG_MOD)
    (hlt : i.now - s.lostPositionTimestamp < AUTODRIVE_MISSING_POSITION_TIMEOUT) :
    (s.loop i).1.moving = true
      ∧ (s.loop i).1.lostPositionTimestamp = s.lostPositionTimestamp
      ∧ Call.stop ∉ (s.loop i).2
      ∧ (s.loop i).2.head? = some (Call.cmdLoop s.currentCommand i.now) := by
  have hc := reachable_currentCommand_lt hr
  have hsub := ulongSub_of_le hle hnow
  have hnt : ¬ AUTODRIVE_MISSING_POSITION_TIMEOUT
      ≤ ulongSub i.now s.lostPositionTimestamp := by omega
  cases hd : i.done <;>
    simp [AutoDriveMode.loop, AutoDriveMode.advance, hm, hs, ha, hnt, hd,
      Nat.not_le.mpr hc]

/-- C6 at the spec's example: armed at 1000, the tick at 1199 continues. -/
theorem C6_gap_below_timeout_witness :
    (armedAt1000.loop ⟨false, 1199, false⟩).1.moving = true
      ∧ (armedAt1000.loop ⟨false, 1199, false⟩).1.lostPositionTimestamp = 1000
      ∧ Call.stop ∉ (armedAt1000.loop ⟨false, 1199, false⟩).2
      ∧ (armedAt1000.loop ⟨false, 1199, false⟩).2.head? = some (Call.cmdLoop 0 1199) :=
  C6_gap_below_timeout armedAt1000 ⟨false, 1199, false⟩ reachable_armedAt1000 rfl rfl
    (by decide) (by decide) (by decide) (by decide)

/-- C7 (program cycling). On every tick that calls `loop(now)` on the active command:
if that call reports done, `currentCommand` becomes `(currentCommand + 1) % 2` and the
calls are exactly that `loop` followed by one `start(now)` on the new index; if it
reports not done, `currentCommand` is unchanged and the `loop` is the only call.
Over every run whose ticks all advance the command and report done, the index after
the `k`-th tick is `(currentCommand + k) % 2`, so it alternates for any number of
rounds. -/
theorem C7_program_cycling (s : AutoDriveMode) :
    (∀ i : Tick, Call.cmdLoop s.currentCommand i.now ∈ (s.loop i).2 →
        (i.done = true →
          (s.loop i).1.currentCommand = (s.currentCommand + 1) % ZIPPY_COMMAND_COUNT
            ∧ (s.loop i).2 = [Call.cmdLoop s.currentCommand i.now,
                Call.cmdStart ((s.currentCommand + 1) % ZIPPY_COMMAND_COUNT) i.now])
        ∧ (i.done = false →
          (s.loop i).1.currentCommand = s.currentCommand
            ∧ (s.loop i).2 = [Call.cmdLoop s.currentCommand i.now]))
      ∧ (∀ ticks : List Tick, s.completesEach ticks = true →
          (s.trace ticks).map AutoDriveMode.currentCommand
            = (List.range ticks.length).map
                (fun k => (s.currentCommand + (k + 1)) % ZIPPY_COMMAND_COUNT)) :=
  ⟨fun i h => loop_of_cmdLoop_mem s i h, trace_of_completesEach s⟩

/-- C7 on a two-command program cycling three full rounds from index 0, and the wrap
from the last command (index 1) to index 0. -/
theorem C7_program_cycling_witness :
    (startedAt0.trace (List.replicate 6 ⟨true, 50, true⟩)).map
        AutoDriveMode.currentCommand = [1, 0, 1, 0, 1, 0]
      ∧ (({ startedAt0 with currentCommand := 1 } : AutoDriveMode).loop
            ⟨true, 9, true⟩).1.currentCommand = 0 :=
  ⟨(C7_program_cycling startedAt0).2 (List.replicate 6 ⟨true, 50, true⟩) (by decide),
   ((C7_program_cycling { startedAt0 with currentCommand := 1 }).1 ⟨true, 9, true⟩
      (by decide)).1 rfl |>.1⟩

/-- C8 (the only path back to idle). For every state, reachable or not, and every tick:
if `moving` is true before the tick and false after it, then the signal was absent, the
watchdog was armed and `currentTime - lostPositionTimestamp ≥ 200` in `unsigned long`
arithmetic (which is the plain difference when the clock has not wrapped since the
watchdog was armed); and `stop()` is called on a tick exactly when that tick takes
`moving` from true to false. -/
theorem C8_only_path_to_idle (s : AutoDriveMode) (i : Tick) :
    (s.moving = true ∧ (s.loop i).1.moving = false →
        i.signal = false ∧ s.lostPositionTimestamp ≠ 0
          ∧ AUTODRIVE_MISSING_POSITION_TIMEOUT
              ≤ ulongSub i.now s.lostPositionTimestamp
          ∧ (s.lostPositionTimestamp ≤ i.now → i.now < ULONG_MOD →
              AUTODRIVE_MISSING_POSITION_TIMEOUT ≤ i.now - s.lostPositionTimestamp))
      ∧ (Call.stop ∈ (s.loop i).2 ↔
          (s.moving = true ∧ (s.loop i).1.moving = false)) := by
  have key : (s.moving = true ∧ (s.loop i).1.moving = false →
        i.signal = false ∧ s.lostPositionTimestamp ≠ 0
          ∧ AUTODRIVE_MISSING_POSITION_TIMEOUT
              ≤ ulongSub i.now s.lostPositionTimestamp)
      ∧ (Call.stop ∈ (s.loop i).2 ↔
          (s.moving = true ∧ (s.loop i).1.moving = false)) := by
    simp only [AutoDriveMode.loop, AutoDriveMode.advance]
    cases hm : s.moving <;> cases hs : i.signal <;> cases hd : i.done <;>
      split_ifs <;> simp_all
  refine ⟨fun h => ?_, key.2⟩
  obtain ⟨h1, h2, h3⟩ := key.1 h
  exact ⟨h1, h2, h3, fun hle hnow => by rw [ulongSub_of_le hle hnow] at h3; exact h3⟩

/-- C8 at the stop of the spec's example (armed at 1000, tick at 1200). -/
theorem C8_only_path_to_idle_witness :
    (false = false ∧ (1000 : Nat) ≠ 0
        ∧ AUTODRIVE_MISSING_POSITION_TIMEOUT ≤ ulongSub 1200 1000
        ∧ ((1000 : Nat) ≤ 1200 → 1200 < ULONG_MOD →
            AUTODRIVE_MISSING_POSITION_TIMEOUT ≤ 1200 - 1000))
      ∧ Call.stop ∈ (armedAt1000.loop ⟨false, 1200, false⟩).2 :=
  ⟨(C8_only_path_to_idle armedAt1000 ⟨false, 1200, false⟩).1 (by decide),
   (C8_only_path_to_idle armedAt1000 ⟨false, 1200, false⟩).2.mpr (by decide)⟩

/-- C9, refuted as stated, once for each of its three parts; every coordinate below is a
binary64 number.
* At `atNormalizedTime = 1`, the move from `(1, 0)` to `(0.1, 0)` passes the x coordinate
  `900719925474099 / 2 ^ 53` (0.09999999999999998), not the target's: the subtraction
  `0.1 - 1.0` is rounded.
* At `atNormalizedTime = 0.5`, the move from `(0.1, 0)` to `(1.5, 0)` passes the x
  coordinate `7205759403792793 / 2 ^ 53` (0.7999999999999999), not the midpoint.
* At `atNormalizedTime = 0`, the move from `(-2 ^ 1023, 0)` to `(2 ^ 1023, 0)` passes an x
  coordinate that is not finite (the subtraction overflows), not the starting one. -/
theorem C9_endpoint_is_rounded :
    (isDouble 1 ∧ isDouble tenth ∧ isDouble 0
        ∧ (moveToTenth.update (some 1)).1 = some (900719925474099 / 9007199254740992)
        ∧ (moveToTenth.update (some 1)).1 ≠ moveToTenth.targetPosition.x)
      ∧ (isDouble (3 / 2) ∧ isDouble (1 / 2)
        ∧ (moveFromTenth.update (some (1 / 2))).1
            = some (7205759403792793 / 9007199254740992)
        ∧ (moveFromTenth.update (some (1 / 2))).1 ≠ some ((tenth + 3 / 2) / 2))
      ∧ (isDouble huge ∧ isDouble (-huge)
        ∧ (moveAcross.update (some 0)).1 = none
        ∧ (moveAcross.update (some 0)).1 ≠ moveAcross.startingPosition.vector.x) := by
  have h1 : (moveToTenth.update (some 1)).1
      = some (900719925474099 / 9007199254740992) := by
    rw [LinearMove.update, moveToTenth, dsub_some, roundToDouble_tenth_sub_one, dmul_some,
      mul_one, isDouble_tenth_sub_one, dadd_some]
    exact roundToDouble_one_add
  have h2 : (moveFromTenth.update (some (1 / 2))).1
      = some (7205759403792793 / 9007199254740992) := by
    rw [LinearMove.update, moveFromTenth, dsub_some, roundToDouble_threeHalves_sub_tenth,
      dmul_some, roundToDouble_half_diff, dadd_some]
    exact roundToDouble_tenth_add
  have h3 : (moveAcross.update (some 0)).1 = none := by
    rw [LinearMove.update, moveAcross, dsub_some, roundToDouble_huge_sub]
    rfl
  have dhalf : isDouble (1 / 2) :=
    roundToDouble_eval _ _ (-1) (-53) 4503599627370496
      (by norm_num [abs_of_pos]) (by norm_num [abs_of_pos]) (by norm_num) (by decide)
      (by norm_num [abs_lt]) (by norm_num)
  refine ⟨⟨isDouble_one, isDouble_tenth, roundToDouble_zero, h1, ?_⟩,
    ⟨isDouble_threeHalves, dhalf, h2, ?_⟩, ⟨isDouble_huge, isDouble_neg_huge, h3, ?_⟩⟩
  · rw [h1]
    simp only [moveToTenth, tenth, ne_eq, Option.some.injEq]
    norm_num
  · rw [h2]
    simp only [tenth, ne_eq, Option.some.injEq]
    norm_num
  · rw [h3]
    simp [moveAcross]

/-- C9, amended. For a starting position `(sx, sy)` and a target `(gx, gy)` made of
binary64 numbers, the position `update` passes to `zippy->move` is
* at `atNormalizedTime = 0` exactly the starting position, when the differences
  `gx - sx` and `gy - sy` are finite in `double`;
* at `atNormalizedTime = 1` exactly the target, when both differences are computed
  without rounding;
* at `atNormalizedTime = 0.5` exactly the midpoint `((sx + gx) / 2, (sy + gy) / 2)`, when
  the differences, their halves and the midpoint coordinates are binary64 numbers. -/
theorem C9_interpolation_endpoints (sx sy gx gy : ℚ) (o : Double) (T : Nat)
    (hsx : isDouble sx) (hsy : isDouble sy) (hgx : isDouble gx) (hgy : isDouble gy) :
    (dsub (some gx) (some sx) ≠ none ∧ dsub (some gy) (some sy) ≠ none →
        LinearMove.update ⟨⟨⟨some sx, some sy⟩⟩, ⟨some gx, some gy⟩, o, T⟩ (some 0)
          = (some sx, some sy, o))
      ∧ (isDouble (gx - sx) ∧ isDouble (gy - sy) →
        LinearMove.update ⟨⟨⟨some sx, some sy⟩⟩, ⟨some gx, some gy⟩, o, T⟩ (some 1)
          = (some gx, some gy, o))
      ∧ (isDouble (gx - sx) ∧ isDouble ((gx - sx) * (1 / 2)) ∧ isDouble ((sx + gx) / 2)
          ∧ isDouble (gy - sy) ∧ isDouble ((gy - sy) * (1 / 2)) ∧ isDouble ((sy + gy) / 2) →
        LinearMove.update ⟨⟨⟨some sx, some sy⟩⟩, ⟨some gx, some gy⟩, o, T⟩ (some (1 / 2))
          = (some ((sx + gx) / 2), some ((sy + gy) / 2), o)) := by
  refine ⟨?_, ?_, ?_⟩
  · rintro ⟨hx, hy⟩
    simp only [LinearMove.update, interpolate_zero sx gx hsx hx,
      interpolate_zero sy gy hsy hy]
  · rintro ⟨hx, hy⟩
    simp only [LinearMove.update, interpolate_one sx gx hgx hx,
      interpolate_one sy gy hgy hy]
  · rintro ⟨hx, hxh, hxm, hy, hyh, hym⟩
    simp only [LinearMove.update, interpolate_half sx gx hx hxh hxm,
      interpolate_half sy gy hy hyh hym]

/-- C9 (amended) at the move from `(0, 0)` to `(100, 50)`. -/
theorem C9_interpolation_endpoints_witness :
    moveToHundred.update (some 0) = (some 0, some 0, none)
      ∧ moveToHundred.update (some 1) = (some 100, some 50, none)
      ∧ moveToHundred.update (some (1 / 2)) = (some 50, some 25, none) := by
  have d100 : isDouble 100 := by simpa using isDouble_intCast 100 (by norm_num)
  have d50 : isDouble 50 := by simpa using isDouble_intCast 50 (by norm_num)
  have d25 : isDouble 25 := by simpa using isDouble_intCast 25 (by norm_num)
  have h := C9_interpolation_endpoints 0 0 100 50 none 1000 roundToDouble_zero
    roundToDouble_zero d100 d50
  refine ⟨h.1 ⟨?_, ?_⟩, h.2.1 ⟨?_, ?_⟩, ?_⟩
  · simp [dsub, d100]
  · simp [dsub, d50]
  · simpa using d100
  · simpa using d50
  · have := h.2.2 ⟨by simpa using d100, by norm_num; exact d50, by norm_num; exact d50,
      by simpa using d50, by norm_num; exact d25, by norm_num; exact d25⟩
    norm_num at this
    exact this

/-- The table of the constructor has `PATH_POINT_COUNT` entries. -/
theorem sourcePoints_length : sourcePoints.length = PATH_POINT_COUNT := by
  simp [sourcePoints, figure8, PATH_POINT_COUNT]

/-- C10 (follower versus leader path). For every table of `PATH_POINT_COUNT` points, the
flip-and-reverse build gives the points scaled and offset by `+ZIPPY_SPACING_MM`, in
reversed order, while the other build gives them offset by `-ZIPPY_SPACING_MM` in table
order; the swap loop over `i < PATH_POINT_COUNT / 2` is the exact reversal and leaves
the middle element (index 18) in place. For the figure-8 table, for every `i` in
`0..36`, the follower waypoint `i` is the leader waypoint `36 - i` plus `(120, 120)`. -/
theorem C10_follower_is_leader_reversed :
    (∀ pts : List KVector2, pts.length = PATH_POINT_COUNT →
        buildPath true pts = (pts.map fun p => offsetPoint true (scalePoint p)).reverse
          ∧ buildPath false pts = pts.map (fun p => offsetPoint false (scalePoint p))
          ∧ swapLoop PATH_POINT_COUNT pts = pts.reverse
          ∧ (swapLoop PATH_POINT_COUNT pts)[PATH_POINT_COUNT / 2]?
              = pts[PATH_POINT_COUNT / 2]?)
      ∧ (∀ i : Nat, i ≤ 36 → ∃ lx ly : ℚ,
          (pathPoints false)[36 - i]? = some ⟨some lx, some ly⟩
            ∧ (pathPoints true)[i]? = some ⟨some (lx + 120), some (ly + 120)⟩) := by
  constructor
  · intro pts hlen
    have hrev : swapLoop PATH_POINT_COUNT pts = pts.reverse := by
      rw [← hlen, swapLoop_eq_reverse]
    refine ⟨?_, ?_, hrev, ?_⟩
    · have hl : PATH_POINT_COUNT
          = (pts.map fun p => offsetPoint true (scalePoint p)).length := by
        rw [List.length_map, hlen]
      rw [buildPath, if_pos rfl, hl, swapLoop_eq_reverse]
    · rw [buildPath, if_neg (by decide)]
    · have h18 : PATH_POINT_COUNT / 2 < pts.length := by rw [hlen]; decide
      rw [hrev, List.getElem?_reverse h18, hlen]
      rfl
  · rw [leaderPath_eq, followerPath_eq]
    intro i hi
    interval_cases i <;>
      exact ⟨_, _, rfl, by norm_num [followerWaypoints]⟩

/-- C10 at the figure-8 table, index 1: leader waypoint 35 is `(-170, -2450)` and follower
waypoint 1 is `(-50, -2330)`. -/
theorem C10_follower_is_leader_reversed_witness :
    (swapLoop PATH_POINT_COUNT sourcePoints = sourcePoints.reverse)
      ∧ ∃ lx ly : ℚ, (pathPoints false)[36 - 1]? = some ⟨some lx, some ly⟩
          ∧ (pathPoints true)[1]? = some ⟨some (lx + 120), some (ly + 120)⟩ :=
  ⟨(C10_follower_is_leader_reversed.1 sourcePoints sourcePoints_length).2.2.1,
   C10_follower_is_leader_reversed.2 1 (by decide)⟩

/-- The leader waypoints are the exact values of `x * 1100 - 60` and `y * 900 - 2750 - 60` at
the written table entries: no operation of the construction loses anything to
rounding. -/
theorem leaderWaypoints_eq_map :
    leaderWaypoints
      = figure8.map (fun p => ⟨some (p.1 * 1100 - 60), some (p.2 * 900 - 2750 - 60)⟩) := by
  simp only [figure8, leaderWaypoints, List.map]
  norm_num

/-- C11 (leader path construction). The build without the macro gives exactly 37 points,
in table order: it is the table with `scalePoint` and then `offsetPoint false` applied
to every entry, and for every index `i` with written table entry `(x, y)` the waypoint
`i` is `(x * 1100 - 60, y * 900 - 2750 - 60)`, these being exact values. -/
theorem C11_leader_path :
    (pathPoints false).length = 37
      ∧ pathPoints false = sourcePoints.map (fun p => offsetPoint false (scalePoint p))
      ∧ (∀ (i : Nat) (x y : ℚ), figure8[i]? = some (x, y) →
          (pathPoints false)[i]?
            = some ⟨some (x * 1100 - 60), some (y * 900 - 2750 - 60)⟩) := by
  refine ⟨?_, ?_, ?_⟩
  · rw [leaderPath_eq]; rfl
  · rw [pathPoints, buildPath, if_neg (by decide)]
  · intro i x y h
    rw [leaderPath_eq, leaderWaypoints_eq_map, List.getElem?_map, h]
    rfl

/-- C11 at index 1 of the table, the entry `(0.1, -0.4)`: the waypoint is `(50, -3170)`. -/
theorem C11_leader_path_witness :
    (pathPoints false)[1]? = some ⟨some (0.1 * 1100 - 60), some (-0.4 * 900 - 2750 - 60)⟩ :=
  C11_leader_path.2.2 1 0.1 (-0.4) rfl

/-- C15 (mirrored geometry in phase). For the figure-8 table and the constants of the
source, the waypoints of the two builds are point reflections of each other index by
index: for every `i` in `0..36` the leader waypoint `(lx, ly)` and the follower waypoint
`(fx, fy)` satisfy `lx + fx = 0` and `ly + fy = -5500`, that is, their midpoint is
`(0, -2750)`. -/
theorem C15_mirrored_in_phase :
    ∀ i : Nat, i ≤ 36 → ∃ lx ly fx fy : ℚ,
      (pathPoints false)[i]? = some ⟨some lx, some ly⟩
        ∧ (pathPoints true)[i]? = some ⟨some fx, some fy⟩
        ∧ lx + fx = 0 ∧ ly + fy = -5500
        ∧ (lx + fx) / 2 = 0 ∧ (ly + fy) / 2 = -2750 := by
  rw [leaderPath_eq, followerPath_eq]
  intro i hi
  interval_cases i <;>
    exact ⟨_, _, _, _, rfl, rfl, by norm_num, by norm_num, by norm_num, by norm_num⟩

/-- C15 at index 1: leader `(50, -3170)`, follower `(-50, -2330)`. -/
theorem C15_mirrored_in_phase_witness :
    ∃ lx ly fx fy : ℚ,
      (pathPoints false)[1]? = some ⟨some lx, some ly⟩
        ∧ (pathPoints true)[1]? = some ⟨some fx, some fy⟩
        ∧ lx + fx = 0 ∧ ly + fy = -5500
        ∧ (lx + fx) / 2 = 0 ∧ (ly + fy) / 2 = -2750 :=
  C15_mirrored_in_phase 1 (by decide)

/-- C19 (closed, twice-repeated loop). In the build without the macro, waypoints 0 and 36
are both `(-60, -2810)` and for every `i` in `0..18` waypoint `i` equals waypoint
`i + 18`; in the build with the macro, waypoints 0 and 36 are equal too (both
`(60, -2690)`). -/
theorem C19_closed_repeated_loop :
    (pathPoints false)[0]? = some ⟨some (-60), some (-2810)⟩
      ∧ (pathPoints false)[36]? = some ⟨some (-60), some (-2810)⟩
      ∧ (∀ i : Nat, i ≤ 18 → ∃ p : KVector2,
          (pathPoints false)[i]? = some p ∧ (pathPoints false)[i + 18]? = some p)
      ∧ (pathPoints true)[0]? = some ⟨some 60, some (-2690)⟩
      ∧ (pathPoints true)[36]? = some ⟨some 60, some (-2690)⟩ := by
  rw [leaderPath_eq, followerPath_eq]
  refine ⟨rfl, rfl, ?_, rfl, rfl⟩
  intro i hi
  interval_cases i <;> exact ⟨_, rfl, rfl⟩

/-- C19 at index 5: waypoints 5 and 23 of the leader path are the same point. -/
theorem C19_closed_repeated_loop_witness :
    ∃ p : KVector2, (pathPoints false)[5]? = some p ∧ (pathPoints false)[5 + 18]? = some p :=
  C19_closed_repeated_loop.2.2.1 5 (by decide)

/-- Every command call of a tick from a state with `currentCommand` in range is on an index
in range. -/
theorem loop_calls_in_range (s : AutoDriveMode) (i : Tick)
    (hc : s.currentCommand < ZIPPY_COMMAND_COUNT) (idx t : Nat)
    (h : Call.cmdStart idx t ∈ (s.loop i).2 ∨ Call.cmdLoop idx t ∈ (s.loop i).2) :
    idx < ZIPPY_COMMAND_COUNT := by
  have h2 : (s.currentCommand + 1) % ZIPPY_COMMAND_COUNT < ZIPPY_COMMAND_COUNT :=
    Nat.mod_lt _ (by decide)
  revert h
  simp only [AutoDriveMode.loop, AutoDriveMode.advance]
  cases hm : s.moving <;> cases hs : i.signal <;> cases hd : i.done <;>
    split_ifs <;> simp <;> intros <;> simp_all [ZIPPY_COMMAND_COUNT] <;> omega

/-- C14 (command index stays in bounds). In every state reachable from the constructor's
state by ticks with any signal values, `unsigned long` times and command results,
`currentCommand < ZIPPY_COMMAND_COUNT`; so the guard
`currentCommand >= ZIPPY_COMMAND_COUNT` is false, and every `start` or `loop` call a tick
makes is on a command index below `ZIPPY_COMMAND_COUNT`. -/
theorem C14_command_index_in_bounds (s : AutoDriveMode) (hr : Reachable s) :
    s.currentCommand < ZIPPY_COMMAND_COUNT
      ∧ ¬ s.currentCommand ≥ ZIPPY_COMMAND_COUNT
      ∧ ∀ (i : Tick) (idx t : Nat),
          Call.cmdStart idx t ∈ (s.loop i).2 ∨ Call.cmdLoop idx t ∈ (s.loop i).2 →
            idx < ZIPPY_COMMAND_COUNT :=
  ⟨reachable_currentCommand_lt hr, Nat.not_le.mpr (reachable_currentCommand_lt hr),
    fun i idx t h => loop_calls_in_range s i (reachable_currentCommand_lt hr) idx t h⟩

/-- C14 at the state armed at 1000. -/
theorem C14_command_index_in_bounds_witness :
    armedAt1000.currentCommand < ZIPPY_COMMAND_COUNT
      ∧ ¬ armedAt1000.currentCommand ≥ ZIPPY_COMMAND_COUNT
      ∧ ∀ (i : Tick) (idx t : Nat),
          Call.cmdStart idx t ∈ (armedAt1000.loop i).2
              ∨ Call.cmdLoop idx t ∈ (armedAt1000.loop i).2 →
            idx < ZIPPY_COMMAND_COUNT :=
  C14_command_index_in_bounds armedAt1000 reachable_armedAt1000

/-- In every reachable state that is not moving the watchdog timestamp is 0. -/
theorem reachable_idle_unarmed {s : AutoDriveMode} (h : Reachable s) :
    s.moving = false → s.lostPositionTimestamp = 0 := by
  induction h with
  | init => intro _; rfl
  | step s i _ _ ih =>
    simp only [AutoDriveMode.loop, AutoDriveMode.advance]
    cases hm : s.moving <;> cases hs : i.signal <;> cases hd : i.done <;>
      split_ifs <;> simp_all

/-- C17 (watchdog is clear whenever idle). In every state reachable from the constructor's
state by any sequence of ticks, `moving == false` implies
`lostPositionTimestamp == 0`. -/
theorem C17_idle_implies_unarmed (s : AutoDriveMode) (hr : Reachable s)
    (hm : s.moving = false) : s.lostPositionTimestamp = 0 :=
  reachable_idle_unarmed hr hm

/-- C17 at the state the watchdog stop leaves behind. -/
theorem C17_idle_implies_unarmed_witness : stoppedState.lostPositionTimestamp = 0 :=
  C17_idle_implies_unarmed stoppedState reachable_stoppedState rfl

/-- C16 (segment heading). For every `atan2`, `LinearMove::start` stores the heading
`atan2(target.x - start.x, target.y - start.y)`, the x displacement being the first
argument, keeps the target, records the starting position and returns the execution
time; every later `update` passes exactly that heading to `zippy->move`, whatever
`atNormalizedTime` is. When target and start have the same finite x coordinate the
heading is `atan2(0, target.y - start.y)`, which is 0 for an `atan2` that maps
`(0, d)` to 0 for `d > 0`, as the C library's does, when the target lies along +Y
(`target.y - start.y` is a finite `d > 0`). -/
theorem C16_segment_heading (atan2 : Double → Double → Double) (m : LinearMove)
    (sp : KPosition) (atNormalizedTime : Double) :
    (m.start atan2 sp).1.targetOrientation
        = atan2 (dsub m.targetPosition.x sp.vector.x) (dsub m.targetPosition.y sp.vector.y)
      ∧ ((m.start atan2 sp).1.update atNormalizedTime).2.2
        = atan2 (dsub m.targetPosition.x sp.vector.x) (dsub m.targetPosition.y sp.vector.y)
      ∧ (m.start atan2 sp).1.targetPosition = m.targetPosition
      ∧ (m.start atan2 sp).1.startingPosition = sp
      ∧ (m.start atan2 sp).2 = m.executionTime
      ∧ (∀ x sy ty : ℚ, m.targetPosition = ⟨some x, some ty⟩ →
          sp.vector = ⟨some x, some sy⟩ →
          ((m.start atan2 sp).1.update atNormalizedTime).2.2
              = atan2 (some 0) (dsub (some ty) (some sy))
            ∧ ((∀ d : ℚ, 0 < d → atan2 (some 0) (some d) = some 0) →
                ∀ d : ℚ, dsub (some ty) (some sy) = some d → 0 < d →
                  ((m.start atan2 sp).1.update atNormalizedTime).2.2 = some 0)) := by
  refine ⟨rfl, rfl, rfl, rfl, rfl, ?_⟩
  intro x sy ty ht hs
  have hx : dsub m.targetPosition.x sp.vector.x = some 0 := by
    rw [ht, hs, dsub_some, sub_self, roundToDouble_zero]
  have hy : dsub m.targetPosition.y sp.vector.y = dsub (some ty) (some sy) := by
    rw [ht, hs]
  have hh : ((m.start atan2 sp).1.update atNormalizedTime).2.2
      = atan2 (some 0) (dsub (some ty) (some sy)) := by
    rw [← hx, ← hy]
    rfl
  refine ⟨hh, ?_⟩
  intro hat d hd hpos
  rw [hh, hd]
  exact hat d hpos

/-- C16 at the move to `(0, 100)` started at `(0, 0)`, with `atan2OnAxis`: the heading
passed by `update` is 0 at `atNormalizedTime = 0.5`. -/
theorem C16_segment_heading_witness :
    ((moveAlongY.start atan2OnAxis ⟨⟨some 0, some 0⟩⟩).1.update (some (1 / 2))).2.2
      = some 0 := by
  have hd : dsub (some (100 : ℚ)) (some 0) = some 100 := by
    rw [dsub_some]
    exact roundToDouble_int _ _ 100 (by norm_num) (by norm_num) (by norm_num)
  have hat : ∀ d : ℚ, 0 < d → atan2OnAxis (some 0) (some d) = some 0 := by
    intro d hpos
    simp [atan2OnAxis, hpos]
  exact ((C16_segment_heading atan2OnAxis moveAlongY ⟨⟨some 0, some 0⟩⟩
    (some (1 / 2))).2.2.2.2.2 0 0 100 rfl rfl).2 hat 100 hd (by norm_num)

/-! ## Rounding is monotone -/

/-- The function `roundToDouble` written with `nearest`. -/
theorem roundToDouble_unfold (q : ℚ) :
    roundToDouble q
      = if q = 0 then some 0
        else if (2 : ℚ) ^ (1024 : ℕ) ≤ |nearest q| then none else some (nearest q) := rfl

theorem floor_le_roundHalfEven (x : ℚ) : ⌊x⌋ ≤ roundHalfEven x := by
  unfold roundHalfEven
  split_ifs <;> omega

theorem roundHalfEven_le_floor_add_one (x : ℚ) : roundHalfEven x ≤ ⌊x⌋ + 1 := by
  unfold roundHalfEven
  split_ifs <;> omega

theorem int_le_roundHalfEven (m : ℤ) (x : ℚ) (h : (m : ℚ) ≤ x) : m ≤ roundHalfEven x :=
  le_trans (Int.le_floor.mpr h) (floor_le_roundHalfEven x)

theorem roundHalfEven_intCast (m : ℤ) : roundHalfEven (m : ℚ) = m := by
  simp [roundHalfEven]

theorem roundHalfEven_neg (x : ℚ) : roundHalfEven (-x) = -roundHalfEven x := by
  by_cases hx : (⌊x⌋ : ℚ) = x
  · rw [← hx, ← Int.cast_neg, roundHalfEven_intCast, roundHalfEven_intCast]
  · have h1 : (⌊x⌋ : ℚ) < x := lt_of_le_of_ne (Int.floor_le x) hx
    have h2 : x < ⌊x⌋ + 1 := Int.lt_floor_add_one x
    have hf : ⌊-x⌋ = -⌊x⌋ - 1 := by
      rw [Int.floor_eq_iff]
      push_cast
      constructor <;> linarith
    unfold roundHalfEven
    rw [hf]
    push_cast
    by_cases c1 : x - ⌊x⌋ < 1 / 2
    · rw [if_pos c1, if_neg (by linarith), if_pos (by linarith)]
      ring
    · by_cases c2 : 1 / 2 < x - ⌊x⌋
      · rw [if_neg c1, if_pos c2, if_pos (by linarith)]
        ring
      · have c3 : x - ⌊x⌋ = 1 / 2 := le_antisymm (not_lt.mp c2) (not_lt.mp c1)
        rw [if_neg c1, if_neg c2, if_neg (by linarith), if_neg (by linarith)]
        by_cases c4 : ⌊x⌋ % 2 = 0
        · rw [if_pos c4, if_neg (by omega)]
          ring
        · rw [if_neg c4, if_pos (by omega)]
          ring

theorem ulp_pos (q : ℚ) : 0 < ulp q := by
  unfold ulp; positivity

theorem ulp_neg (q : ℚ) : ulp (-q) = ulp q := by
  unfold ulp; rw [abs_neg]

theorem nearest_neg (q : ℚ) : nearest (-q) = -nearest q := by
  unfold nearest
  rw [ulp_neg, neg_div, roundHalfEven_neg]
  push_cast
  ring

theorem roundToDouble_neg (q : ℚ) :
    roundToDouble (-q) = (roundToDouble q).map (fun r => -r) := by
  rw [roundToDouble_unfold, roundToDouble_unfold, nearest_neg, abs_neg]
  by_cases h0 : q = 0
  · simp [h0]
  · rw [if_neg (neg_ne_zero.mpr h0), if_neg h0]
    split_ifs <;> rfl

theorem isDouble_neg (b : ℚ) (hb : isDouble b) : isDouble (-b) := by
  rw [isDouble, roundToDouble_neg, hb]
  rfl

/-- A nonzero binary64 number is an integer multiple of its own spacing. -/
theorem isDouble_eq_nearest (a : ℚ) (ha : isDouble a) (h0 : a ≠ 0) : a = nearest a := by
  rw [isDouble, roundToDouble_unfold, if_neg h0] at ha
  split_ifs at ha
  exact (Option.some.inj ha).symm

/-- A binary64 number has magnitude below `2 ^ 1024`. -/
theorem isDouble_abs_lt (a : ℚ) (ha : isDouble a) : |a| < (2 : ℚ) ^ (1024 : ℕ) := by
  by_cases h0 : a = 0
  · rw [h0, abs_zero]; positivity
  · have h := ha
    rw [isDouble, roundToDouble_unfold, if_neg h0] at h
    split_ifs at h with hov
    rw [not_le] at hov
    have hn : nearest a = a := Option.some.inj h
    rw [hn] at hov
    exact hov

/-- An integer multiple of the spacing of `q` that is at most `q` is at most the rounded
value. -/
theorem mul_ulp_le_nearest (q : ℚ) (m : ℤ) (h : (m : ℚ) * ulp q ≤ q) :
    (m : ℚ) * ulp q ≤ nearest q := by
  have hu := ulp_pos q
  have h1 : (m : ℚ) ≤ q / ulp q := by rwa [le_div_iff₀ hu]
  have h2 : m ≤ roundHalfEven (q / ulp q) := int_le_roundHalfEven m _ h1
  unfold nearest
  have h3 : (m : ℚ) ≤ (roundHalfEven (q / ulp q) : ℚ) := by exact_mod_cast h2
  exact mul_le_mul_of_nonneg_right h3 hu.le

/-- A multiple of `2 ^ ka` is a multiple of `2 ^ kq` when `kq ≤ ka`. -/
theorem multiple_of_finer (m : ℤ) (ka kq : ℤ) (h : kq ≤ ka) :
    ∃ m2 : ℤ, (m : ℚ) * (2 : ℚ) ^ ka = (m2 : ℚ) * (2 : ℚ) ^ kq := by
  obtain ⟨n, hn⟩ : ∃ n : ℕ, (n : ℤ) = ka - kq := ⟨(ka - kq).toNat, by omega⟩
  refine ⟨m * 2 ^ n, ?_⟩
  have hka : ka = kq + n := by omega
  rw [hka, zpow_add₀ (by norm_num : (2 : ℚ) ≠ 0), zpow_natCast]
  push_cast
  ring

/-- Rounding never goes below a binary64 number that the exact value is not below. -/
theorem le_nearest (a q : ℚ) (ha : isDouble a) (haq : a ≤ q) (hq : q ≠ 0) :
    a ≤ nearest q := by
  have hu := ulp_pos q
  by_cases hapos : a ≤ 0
  · by_cases hqpos : 0 < q
    · -- the rounded value of a positive number is not negative
      have h := mul_ulp_le_nearest q 0 (by simpa using hqpos.le)
      simp only [Int.cast_zero, zero_mul] at h
      exact le_trans hapos h
    · -- both negative: `a` is a multiple of the spacing of `q`
      have hqneg : q < 0 := lt_of_le_of_ne (not_lt.mp hqpos) hq
      have haneg : a < 0 := lt_of_le_of_lt haq hqneg
      have ha0 : a ≠ 0 := ne_of_lt haneg
      have habs : |q| ≤ |a| := by
        rw [abs_of_neg hqneg, abs_of_neg haneg]; linarith
      have hlog : Int.log 2 |q| ≤ Int.log 2 |a| :=
        Int.log_mono_right (abs_pos.mpr hq) habs
      have hmul := isDouble_eq_nearest a ha ha0
      unfold nearest at hmul
      obtain ⟨m2, hm2⟩ := multiple_of_finer (roundHalfEven (a / ulp a))
        (max (Int.log 2 |a|) (-1022) - 52) (max (Int.log 2 |q|) (-1022) - 52) (by omega)
      have hau : a = (m2 : ℚ) * ulp q := by
        rw [hmul]
        exact hm2
      rw [hau] at haq ⊢
      exact mul_ulp_le_nearest q m2 haq
  · have hapos2 : 0 < a := not_le.mp hapos
    have hqpos : 0 < q := lt_of_lt_of_le hapos2 haq
    have ha0 : a ≠ 0 := ne_of_gt hapos2
    have habs : |a| ≤ |q| := by
      rw [abs_of_pos hqpos, abs_of_pos hapos2]; exact haq
    have hlog : Int.log 2 |a| ≤ Int.log 2 |q| :=
      Int.log_mono_right (abs_pos.mpr ha0) habs
    by_cases hk : max (Int.log 2 |q|) (-1022) ≤ max (Int.log 2 |a|) (-1022)
    · have hmul := isDouble_eq_nearest a ha ha0
      unfold nearest at hmul
      obtain ⟨m2, hm2⟩ := multiple_of_finer (roundHalfEven (a / ulp a))
        (max (Int.log 2 |a|) (-1022) - 52) (max (Int.log 2 |q|) (-1022) - 52) (by omega)
      have hau : a = (m2 : ℚ) * ulp q := by
        rw [hmul]
        exact hm2
      rw [hau] at haq ⊢
      exact mul_ulp_le_nearest q m2 haq
    · -- `a` lies in a lower binade than `q`: the power of two below `q` separates them
      have he1 : -1022 < Int.log 2 |q| := by omega
      have he2 : Int.log 2 |a| + 1 ≤ Int.log 2 |q| := by omega
      have h1 : a < (2 : ℚ) ^ (Int.log 2 |a| + 1) := by
        have h := Int.lt_zpow_succ_log_self (b := 2) (by norm_num) |a|
        rw [Nat.cast_ofNat] at h
        exact lt_of_le_of_lt (le_abs_self a) h
      have h2 : (2 : ℚ) ^ (Int.log 2 |a| + 1) ≤ (2 : ℚ) ^ (Int.log 2 |q|) :=
        zpow_le_zpow_right₀ (by norm_num) he2
      have h3 : (2 : ℚ) ^ (Int.log 2 |q|) ≤ q := by
        have h := Int.zpow_log_le_self (b := 2) (by norm_num) (abs_pos.mpr hq)
        rw [Nat.cast_ofNat] at h
        exact le_trans h (le_of_eq (abs_of_pos hqpos))
      have hpow : (2 : ℚ) ^ (Int.log 2 |q|) = ((2 ^ 52 : ℤ) : ℚ) * ulp q := by
        unfold ulp
        rw [max_eq_left (by omega), show ((2 ^ 52 : ℤ) : ℚ) = (2 : ℚ) ^ (52 : ℤ) by norm_num,
          ← zpow_add₀ (by norm_num : (2 : ℚ) ≠ 0)]
        congr 1
        omega
      have h4 := mul_ulp_le_nearest q (2 ^ 52) (by rw [← hpow]; exact h3)
      rw [← hpow] at h4
      linarith

/-- Rounding never goes above a binary64 number that the exact value is not above. -/
theorem nearest_le (b q : ℚ) (hb : isDouble b) (hqb : q ≤ b) (hq : q ≠ 0) :
    nearest q ≤ b := by
  have h := le_nearest (-b) (-q) (isDouble_neg b hb) (by linarith) (neg_ne_zero.mpr hq)
  rw [nearest_neg] at h
  linarith

/-- Rounding is monotone around binary64 numbers: an exact value between two binary64
numbers rounds to a finite value between them. -/
theorem roundToDouble_between (a b q : ℚ) (ha : isDouble a) (hb : isDouble b)
    (haq : a ≤ q) (hqb : q ≤ b) :
    ∃ r, roundToDouble q = some r ∧ a ≤ r ∧ r ≤ b := by
  by_cases hq : q = 0
  · exact ⟨0, by rw [hq, roundToDouble_zero], by rw [hq] at haq; exact haq,
      by rw [hq] at hqb; exact hqb⟩
  · have h1 := le_nearest a q ha haq hq
    have h2 := nearest_le b q hb hqb hq
    have ha2 := isDouble_abs_lt a ha
    have hb2 := isDouble_abs_lt b hb
    have hov : ¬ (2 : ℚ) ^ (1024 : ℕ) ≤ |nearest q| := by
      rw [not_le, abs_lt]
      rw [abs_lt] at ha2 hb2
      constructor <;> linarith
    exact ⟨nearest q, by rw [roundToDouble_unfold, if_neg hq, if_neg hov], h1, h2⟩

/-- One-sided forms, for a result known to be finite. -/
theorem le_roundToDouble (a q r : ℚ) (ha : isDouble a) (haq : a ≤ q)
    (hr : roundToDouble q = some r) : a ≤ r := by
  by_cases hq : q = 0
  · rw [hq, roundToDouble_zero] at hr
    rw [← Option.some.inj hr, ← hq]; exact haq
  · rw [roundToDouble_unfold, if_neg hq] at hr
    split_ifs at hr
    rw [← Option.some.inj hr]
    exact le_nearest a q ha haq hq

theorem roundToDouble_le (b q r : ℚ) (hb : isDouble b) (hqb : q ≤ b)
    (hr : roundToDouble q = some r) : r ≤ b := by
  by_cases hq : q = 0
  · rw [hq, roundToDouble_zero] at hr
    rw [← Option.some.inj hr, ← hq]; exact hqb
  · rw [roundToDouble_unfold, if_neg hq] at hr
    split_ifs at hr
    rw [← Option.some.inj hr]
    exact nearest_le b q hb hqb hq

/-- When none of its three operations rounds, the interpolation gives `s + (g - s) * t`. -/
theorem interpolate_exact (s g t : ℚ) (hd : isDouble (g - s))
    (hp : isDouble ((g - s) * t)) (hr : isDouble (s + (g - s) * t)) :
    dadd (some s) (dmul (dsub (some g) (some s)) (some t)) = some (s + (g - s) * t) := by
  rw [dsub_some, hd, dmul_some, hp, dadd_some]
  exact hr

/-- The x coordinate passed by the move from `(1, 0)` to `(0.1, 0)` at
`atNormalizedTime = 1`. -/
theorem update_moveToTenth_one :
    (moveToTenth.update (some 1)).1 = some (900719925474099 / 9007199254740992) := by
  rw [LinearMove.update, moveToTenth, dsub_some, roundToDouble_tenth_sub_one, dmul_some,
    mul_one, isDouble_tenth_sub_one, dadd_some]
  exact roundToDouble_one_add

/-- The x coordinate passed by the move from `(0, 0)` to `(1, 1)` at `atNormalizedTime = t`
for an integer `t` of small magnitude is `t`. -/
theorem update_moveUnit (t : ℤ) (ht : |t| < 2 ^ 53) :
    (moveUnit.update (some (t : ℚ))).1 = some (t : ℚ) := by
  have h1 : roundToDouble ((1 : ℚ) - 0) = some 1 :=
    roundToDouble_int _ _ 1 (by norm_num) (by norm_num) (by norm_num)
  rw [LinearMove.update, moveUnit, dsub_some, h1, dmul_some, one_mul,
    isDouble_intCast t ht, dadd_some, zero_add]
  exact isDouble_intCast t ht

/-! ## The interpolation under rounding -/

/-- For `0 ≤ t ≤ 1` and an exact difference `g - s`, the interpolation is finite and lies
between `s` and `g`, whatever the product and the sum lose to rounding. -/
theorem interpolate_between (s g t : ℚ) (hs : isDouble s) (hg : isDouble g)
    (hd : isDouble (g - s)) (h0 : 0 ≤ t) (h1 : t ≤ 1) :
    ∃ v, dadd (some s) (dmul (dsub (some g) (some s)) (some t)) = some v
      ∧ min s g ≤ v ∧ v ≤ max s g := by
  rw [dsub_some, hd, dmul_some]
  rcases le_total s g with hsg | hgs
  · have hd0 : 0 ≤ g - s := by linarith
    obtain ⟨p, hp, hp0, hpd⟩ := roundToDouble_between 0 (g - s) ((g - s) * t)
      roundToDouble_zero hd (mul_nonneg hd0 h0) (by nlinarith)
    rw [hp, dadd_some]
    obtain ⟨v, hv, hv0, hv1⟩ := roundToDouble_between s g (s + p) hs hg
      (by linarith) (by linarith)
    refine ⟨v, hv, ?_, ?_⟩
    · rw [min_eq_left hsg]; exact hv0
    · rw [max_eq_right hsg]; exact hv1
  · have hd0 : g - s ≤ 0 := by linarith
    obtain ⟨p, hp, hpd, hp0⟩ := roundToDouble_between (g - s) 0 ((g - s) * t)
      hd roundToDouble_zero (by nlinarith) (by nlinarith)
    rw [hp, dadd_some]
    obtain ⟨v, hv, hv0, hv1⟩ := roundToDouble_between g s (s + p) hg hs
      (by linarith) (by linarith)
    refine ⟨v, hv, ?_, ?_⟩
    · rw [min_eq_right hgs]; exact hv0
    · rw [max_eq_left hgs]; exact hv1

/-- For `t ≥ 1` and an exact difference `g - s`, a finite result of the interpolation is at
the target coordinate `g` or beyond it, seen from `s`. -/
theorem interpolate_beyond_target (s g t v : ℚ) (hg : isDouble g) (hd : isDouble (g - s))
    (h1 : 1 ≤ t)
    (hv : dadd (some s) (dmul (dsub (some g) (some s)) (some t)) = some v) :
    (s ≤ g → g ≤ v) ∧ (g ≤ s → v ≤ g) := by
  rw [dsub_some, hd, dmul_some] at hv
  cases hp : roundToDouble ((g - s) * t) with
  | none =>
    rw [hp] at hv
    simp [dadd] at hv
  | some p =>
    rw [hp, dadd_some] at hv
    constructor
    · intro hsg
      have hdp : g - s ≤ p :=
        le_roundToDouble (g - s) ((g - s) * t) p hd (by nlinarith) hp
      exact le_roundToDouble g (s + p) v hg (by linarith) hv
    · intro hgs
      have hdp : p ≤ g - s :=
        roundToDouble_le (g - s) ((g - s) * t) p hd (by nlinarith) hp
      exact roundToDouble_le g (s + p) v hg (by linarith) hv

/-- For `t ≤ 0`, a finite result of the interpolation is at the starting coordinate `s` or
before it, seen from `g`; no operation needs to be exact. -/
theorem interpolate_before_start (s g t v : ℚ) (hs : isDouble s) (h0 : t ≤ 0)
    (hv : dadd (some s) (dmul (dsub (some g) (some s)) (some t)) = some v) :
    (s ≤ g → v ≤ s) ∧ (g ≤ s → s ≤ v) := by
  rw [dsub_some] at hv
  cases hd : roundToDouble (g - s) with
  | none =>
    rw [hd] at hv
    simp [dadd, dmul] at hv
  | some d =>
    rw [hd, dmul_some] at hv
    cases hp : roundToDouble (d * t) with
    | none =>
      rw [hp] at hv
      simp [dadd] at hv
    | some p =>
      rw [hp, dadd_some] at hv
      constructor
      · intro hsg
        have hd0 : 0 ≤ d :=
          le_roundToDouble 0 (g - s) d roundToDouble_zero (by linarith) hd
        have hp0 : p ≤ 0 :=
          roundToDouble_le 0 (d * t) p roundToDouble_zero (by nlinarith) hp
        exact roundToDouble_le s (s + p) v hs (by linarith) hv
      · intro hgs
        have hd0 : d ≤ 0 :=
          roundToDouble_le 0 (g - s) d roundToDouble_zero (by linarith) hd
        have hp0 : 0 ≤ p :=
          le_roundToDouble 0 (d * t) p roundToDouble_zero (by nlinarith) hp
        exact le_roundToDouble s (s + p) v hs (by linarith) hv

/-- The number `nineTenths` is a binary64 number. -/
theorem isDouble_nineTenths : isDouble nineTenths := by
  rw [isDouble, nineTenths]
  exact roundToDouble_eval _ _ (-1) (-53) 8106479329266893
    (by norm_num [abs_of_pos]) (by norm_num [abs_of_pos]) (by norm_num) (by decide)
    (by norm_num [abs_lt]) (by norm_num)

/-- The x coordinate passed by the move from `(3, 0)` to `(0, 0)` at
`atNormalizedTime = 0.9`: the product `-3 * 0.9` is rounded, the sum is not. -/
theorem update_moveFromThree :
    (moveFromThree.update (some nineTenths)).1
      = some (337769972052787 / 1125899906842624) := by
  have hd : roundToDouble ((0 : ℚ) - 3) = some (-3) :=
    roundToDouble_int _ _ (-3) (by norm_num) (by norm_num) (by norm_num)
  have hp : roundToDouble (-3 * nineTenths)
      = some (-(3039929748475085 / 1125899906842624)) := by
    rw [nineTenths]
    exact roundToDouble_eval _ _ 1 (-51) (-6079859496950170)
      (by norm_num [abs_of_neg]) (by norm_num [abs_of_neg]) (by norm_num) (by decide)
      (by norm_num [abs_lt]) (by norm_num)
  have hv : roundToDouble (3 + -(3039929748475085 / 1125899906842624))
      = some (337769972052787 / 1125899906842624) :=
    roundToDouble_eval _ _ (-2) (-54) 5404319552844592
      (by norm_num [abs_of_pos]) (by norm_num [abs_of_pos]) (by norm_num) (by decide)
      (by norm_num [abs_lt]) (by norm_num)
  rw [LinearMove.update, moveFromThree, dsub_some, hd, dmul_some, hp, dadd_some]
  exact hv

/-- The exact value `(1 - 0.9) * 3 + 0.9 * 0` is a binary64 number
(0.29999999999999993). -/
theorem isDouble_convex_moveFromThree :
    isDouble ((1 - nineTenths) * 3 + nineTenths * 0) := by
  rw [isDouble, nineTenths]
  exact roundToDouble_eval _ _ (-2) (-54) 5404319552844594
    (by norm_num [abs_of_pos]) (by norm_num [abs_of_pos]) (by norm_num) (by decide)
    (by norm_num [abs_lt]) (by norm_num)

/-- Above 1 the result can still be the target: the move from `(3, 0)` to `(4, 0)` passes
the x coordinate 4 at `atNormalizedTime = 1 + 2 ^ (-52)`, the sum `3 + t` being rounded
down to 4. -/
theorem update_above_one_can_give_target :
    isDouble (4503599627370497 / 4503599627370496)
      ∧ (1 : ℚ) < 4503599627370497 / 4503599627370496
      ∧ (moveThreeToFour.update (some (4503599627370497 / 4503599627370496))).1
          = moveThreeToFour.targetPosition.x := by
  have ht : isDouble (4503599627370497 / 4503599627370496) :=
    roundToDouble_eval _ _ 0 (-52) 4503599627370497
      (by norm_num [abs_of_pos]) (by norm_num [abs_of_pos]) (by norm_num) (by decide)
      (by norm_num [abs_lt]) (by norm_num)
  have hd : roundToDouble ((4 : ℚ) - 3) = some 1 :=
    roundToDouble_int _ _ 1 (by norm_num) (by norm_num) (by norm_num)
  have hv : roundToDouble ((3 : ℚ) + 4503599627370497 / 4503599627370496) = some 4 :=
    roundToDouble_eval _ _ 2 (-50) 4503599627370496
      (by norm_num [abs_of_pos]) (by norm_num [abs_of_pos]) (by norm_num) (by decide)
      (by norm_num [abs_lt]) (by norm_num)
  refine ⟨ht, by norm_num, ?_⟩
  rw [LinearMove.update, moveThreeToFour, dsub_some, hd, dmul_some, one_mul, ht, dadd_some]
  exact hv

/-- Without an exact difference the result at `atNormalizedTime = 1` can fall short of
the target: the move from `(2, 0)` to `(0.1, 0)` passes the x coordinate
`225179981368525 / 2 ^ 51` (0.10000000000000009), above the target's `0.1` although the
start is above the target. -/
theorem update_at_one_short_of_target :
    isDouble 2 ∧ isDouble tenth ∧ tenth ≤ 2
      ∧ (moveTwoToTenth.update (some 1)).1
          = some (225179981368525 / 2251799813685248)
      ∧ tenth < 225179981368525 / 2251799813685248 := by
  have h2 : isDouble 2 :=
    roundToDouble_int _ _ 2 (by norm_num) (by norm_num) (by norm_num)
  have hd : roundToDouble (tenth - 2) = some (-(4278419646001971 / 2251799813685248)) := by
    rw [tenth]
    exact roundToDouble_eval _ _ 0 (-52) (-8556839292003942)
      (by norm_num [abs_of_neg]) (by norm_num [abs_of_neg]) (by norm_num) (by decide)
      (by norm_num [abs_lt]) (by norm_num)
  have hp : isDouble (-(4278419646001971 / 2251799813685248)) :=
    roundToDouble_eval _ _ 0 (-52) (-8556839292003942)
      (by norm_num [abs_of_neg]) (by norm_num [abs_of_neg]) (by norm_num) (by decide)
      (by norm_num [abs_lt]) (by norm_num)
  have hv : roundToDouble (2 + -(4278419646001971 / 2251799813685248))
      = some (225179981368525 / 2251799813685248) :=
    roundToDouble_eval _ _ (-4) (-56) 7205759403792800
      (by norm_num [abs_of_pos]) (by norm_num [abs_of_pos]) (by norm_num) (by decide)
      (by norm_num [abs_lt]) (by norm_num)
  refine ⟨h2, isDouble_tenth, by rw [tenth]; norm_num, ?_, by rw [tenth]; norm_num⟩
  rw [LinearMove.update, moveTwoToTenth, dsub_some, hd, dmul_some, mul_one, hp, dadd_some]
  exact hv

/-- C13, refuted as stated: `update` applies no clamp. The move from `(0, 0)` to `(1, 1)`
passes the x coordinate 2 at `atNormalizedTime = 2`, which is not the target's
(above 1 the claim promises the target), and the x coordinate -1 at
`atNormalizedTime = -1`, which is not the starting one. -/
theorem C13_update_does_not_clamp :
    (moveUnit.update (some 2)).1 = some 2
      ∧ (moveUnit.update (some 2)).1 ≠ moveUnit.targetPosition.x
      ∧ (moveUnit.update (some (-1))).1 = some (-1)
      ∧ (moveUnit.update (some (-1))).1 ≠ moveUnit.startingPosition.vector.x := by
  have h2 : (moveUnit.update (some 2)).1 = some 2 := by
    have := update_moveUnit 2 (by norm_num)
    norm_num at this
    exact this
  have h3 : (moveUnit.update (some (-1))).1 = some (-1) := by
    have := update_moveUnit (-1) (by norm_num)
    norm_num at this
    exact this
  refine ⟨h2, ?_, h3, ?_⟩
  · rw [h2]; simp [moveUnit]
  · rw [h3]; simp [moveUnit]

/-- C13, amended. For a starting position and a target made of binary64 numbers and
every `atNormalizedTime = t`, on the x axis and on the y axis alike:
* `update` applies no clamp: the position passed to `zippy->move` is the `double`
  evaluation of `start + (target - start) * t` with `t` as passed, and the heading passed
  is the stored one;
* for `0 ≤ t ≤ 1` the position passed to `zippy->move` is the `double` evaluation of
  `start + (target - start) * t` at the clamped time `max 0 (min 1 t)`;
* whenever none of the three operations rounds, the coordinate passed is exactly
  `s + (g - s) * t`, so that for `t > 1` it is strictly beyond the target coordinate `g`
  and for `t < 0` strictly before the starting coordinate `s`, when `s ≠ g`;
* with rounding, for `t ≥ 1` and an exact difference `g - s`, a finite coordinate
  passed is at the target coordinate or beyond it;
* with rounding, for `t ≤ 0`, a finite coordinate passed is at the starting coordinate or
  before it. -/
theorem C13_unclamped_interpolation (sx sy gx gy t : ℚ) (o : Double) (T : Nat)
    (hsx : isDouble sx) (hsy : isDouble sy) (hgx : isDouble gx) (hgy : isDouble gy) :
    LinearMove.update ⟨⟨⟨some sx, some sy⟩⟩, ⟨some gx, some gy⟩, o, T⟩ (some t)
        = (dadd (some sx) (dmul (dsub (some gx) (some sx)) (some t)),
            dadd (some sy) (dmul (dsub (some gy) (some sy)) (some t)), o)
      ∧ (0 ≤ t → t ≤ 1 →
        LinearMove.update ⟨⟨⟨some sx, some sy⟩⟩, ⟨some gx, some gy⟩, o, T⟩ (some t)
          = (dadd (some sx) (dmul (dsub (some gx) (some sx)) (some (max 0 (min 1 t)))),
              dadd (some sy) (dmul (dsub (some gy) (some sy)) (some (max 0 (min 1 t)))),
              o))
      ∧ (isDouble (gx - sx) → isDouble ((gx - sx) * t) → isDouble (sx + (gx - sx) * t) →
          ∃ v, (LinearMove.update ⟨⟨⟨some sx, some sy⟩⟩, ⟨some gx, some gy⟩, o, T⟩
                (some t)).1 = some v
            ∧ v = sx + (gx - sx) * t
            ∧ (1 < t → (sx < gx → gx < v) ∧ (gx < sx → v < gx))
            ∧ (t < 0 → (sx < gx → v < sx) ∧ (gx < sx → sx < v)))
      ∧ (isDouble (gy - sy) → isDouble ((gy - sy) * t) → isDouble (sy + (gy - sy) * t) →
          ∃ v, (LinearMove.update ⟨⟨⟨some sx, some sy⟩⟩, ⟨some gx, some gy⟩, o, T⟩
                (some t)).2.1 = some v
            ∧ v = sy + (gy - sy) * t
            ∧ (1 < t → (sy < gy → gy < v) ∧ (gy < sy → v < gy))
            ∧ (t < 0 → (sy < gy → v < sy) ∧ (gy < sy → sy < v)))
      ∧ (1 ≤ t → isDouble (gx - sx) → ∀ v,
          (LinearMove.update ⟨⟨⟨some sx, some sy⟩⟩, ⟨some gx, some gy⟩, o, T⟩
            (some t)).1 = some v →
          (sx ≤ gx → gx ≤ v) ∧ (gx ≤ sx → v ≤ gx))
      ∧ (1 ≤ t → isDouble (gy - sy) → ∀ v,
          (LinearMove.update ⟨⟨⟨some sx, some sy⟩⟩, ⟨some gx, some gy⟩, o, T⟩
            (some t)).2.1 = some v →
          (sy ≤ gy → gy ≤ v) ∧ (gy ≤ sy → v ≤ gy))
      ∧ (t ≤ 0 → ∀ v,
          (LinearMove.update ⟨⟨⟨some sx, some sy⟩⟩, ⟨some gx, some gy⟩, o, T⟩
            (some t)).1 = some v →
          (sx ≤ gx → v ≤ sx) ∧ (gx ≤ sx → sx ≤ v))
      ∧ (t ≤ 0 → ∀ v,
          (LinearMove.update ⟨⟨⟨some sx, some sy⟩⟩, ⟨some gx, some gy⟩, o, T⟩
            (some t)).2.1 = some v →
          (sy ≤ gy → v ≤ sy) ∧ (gy ≤ sy → sy ≤ v)) := by
  have strict : ∀ s g : ℚ,
      (1 < t → (s < g → g < s + (g - s) * t) ∧ (g < s → s + (g - s) * t < g))
        ∧ (t < 0 → (s < g → s + (g - s) * t < s) ∧ (g < s → s < s + (g - s) * t)) := by
    intro s g
    refine ⟨fun h1 => ⟨fun h => ?_, fun h => ?_⟩, fun h0 => ⟨fun h => ?_, fun h => ?_⟩⟩
    · nlinarith [mul_pos (sub_pos.mpr h) (sub_pos.mpr h1)]
    · nlinarith [mul_pos (sub_pos.mpr h) (sub_pos.mpr h1)]
    · nlinarith [mul_pos (sub_pos.mpr h) (neg_pos.mpr h0)]
    · nlinarith [mul_pos (sub_pos.mpr h) (neg_pos.mpr h0)]
  refine ⟨rfl, ?_, ?_, ?_, ?_, ?_, ?_, ?_⟩
  · intro h0 h1
    rw [min_eq_right h1, max_eq_right h0]
    rfl
  · intro hd hp hr
    exact ⟨sx + (gx - sx) * t, interpolate_exact sx gx t hd hp hr, rfl,
      (strict sx gx).1, (strict sx gx).2⟩
  · intro hd hp hr
    exact ⟨sy + (gy - sy) * t, interpolate_exact sy gy t hd hp hr, rfl,
      (strict sy gy).1, (strict sy gy).2⟩
  · intro h1 hd v hv
    exact interpolate_beyond_target sx gx t v hgx hd h1 hv
  · intro h1 hd v hv
    exact interpolate_beyond_target sy gy t v hgy hd h1 hv
  · intro h0 v hv
    exact interpolate_before_start sx gx t v hsx h0 hv
  · intro h0 v hv
    exact interpolate_before_start sy gy t v hsy h0 hv

/-- C13 (amended) at the move from `(0, 0)` to `(1, 1)`. At `atNormalizedTime = 2` the
x coordinate passed is `0 + (1 - 0) * 2`, strictly beyond the target's 1, and every
finite y coordinate passed is at least the target's 1; at `atNormalizedTime = -1` the x
coordinate passed is `0 + (1 - 0) * (-1)`, strictly before the start's 0, and every
finite y coordinate passed is at most the start's 0. -/
theorem C13_unclamped_interpolation_witness :
    (∃ v, (LinearMove.update ⟨⟨⟨some 0, some 0⟩⟩, ⟨some 1, some 1⟩, none, 1000⟩
            (some 2)).1 = some v
        ∧ v = 0 + (1 - 0) * 2 ∧ 1 < v)
      ∧ (∀ v, (LinearMove.update ⟨⟨⟨some 0, some 0⟩⟩, ⟨some 1, some 1⟩, none, 1000⟩
            (some 2)).2.1 = some v → 1 ≤ v)
      ∧ (∃ v, (LinearMove.update ⟨⟨⟨some 0, some 0⟩⟩, ⟨some 1, some 1⟩, none, 1000⟩
            (some (-1))).1 = some v
        ∧ v = 0 + (1 - 0) * (-1) ∧ v < 0)
      ∧ (∀ v, (LinearMove.update ⟨⟨⟨some 0, some 0⟩⟩, ⟨some 1, some 1⟩, none, 1000⟩
            (some (-1))).2.1 = some v → v ≤ 0) := by
  have d0 : isDouble 0 := roundToDouble_zero
  have d1 : isDouble 1 := isDouble_one
  have e1 : isDouble ((1 : ℚ) - 0) :=
    roundToDouble_int _ _ 1 (by norm_num) (by norm_num) (by norm_num)
  have e2 : isDouble (((1 : ℚ) - 0) * 2) :=
    roundToDouble_int _ _ 2 (by norm_num) (by norm_num) (by norm_num)
  have e3 : isDouble ((0 : ℚ) + (1 - 0) * 2) :=
    roundToDouble_int _ _ 2 (by norm_num) (by norm_num) (by norm_num)
  have f2 : isDouble (((1 : ℚ) - 0) * (-1)) :=
    roundToDouble_int _ _ (-1) (by norm_num) (by norm_num) (by norm_num)
  have f3 : isDouble ((0 : ℚ) + (1 - 0) * (-1)) :=
    roundToDouble_int _ _ (-1) (by norm_num) (by norm_num) (by norm_num)
  have h := C13_unclamped_interpolation 0 0 1 1 2 none 1000 d0 d0 d1 d1
  have k := C13_unclamped_interpolation 0 0 1 1 (-1) none 1000 d0 d0 d1 d1
  refine ⟨?_, ?_, ?_, ?_⟩
  · obtain ⟨v, hv, hval, hb, _⟩ := h.2.2.1 e1 e2 e3
    exact ⟨v, hv, hval, (hb (by norm_num)).1 (by norm_num)⟩
  · intro v hv
    exact (h.2.2.2.2.2.1 (by norm_num) e1 v hv).1 (by norm_num)
  · obtain ⟨v, hv, hval, _, hb⟩ := k.2.2.1 e1 f2 f3
    exact ⟨v, hv, hval, (hb (by norm_num)).1 (by norm_num)⟩
  · intro v hv
    exact (k.2.2.2.2.2.2.2 (by norm_num) v hv).1 (by norm_num)

/-- C18, refuted as stated, in each of its two parts.
* For the move from `(1, 0)` to `(0.1, 0)` and `atNormalizedTime = 1` (within `[0, 1]`),
  the x coordinate passed is `900719925474099 / 2 ^ 53` (0.09999999999999998), which is
  below both the start's 1 and the target's 0.1, and is not
  `(1 - t) * start + t * target`: the subtraction `0.1 - 1.0` is rounded.
* For the move from `(3, 0)` to `(0, 0)` and `atNormalizedTime = 0.9`, where the
  subtraction `0 - 3` is exact and `(1 - t) * start + t * target` is itself a binary64
  number (0.29999999999999993), the x coordinate passed is `337769972052787 / 2 ^ 50`
  (0.2999999999999998), not that number: the product is rounded. -/
theorem C18_rounding_leaves_the_segment :
    (isDouble 1 ∧ isDouble tenth
      ∧ (moveToTenth.update (some 1)).1 = some (900719925474099 / 9007199254740992)
      ∧ (900719925474099 / 9007199254740992 : ℚ) < min 1 tenth
      ∧ (900719925474099 / 9007199254740992 : ℚ) ≠ (1 - 1) * 1 + 1 * tenth)
    ∧ (isDouble 3 ∧ isDouble 0 ∧ isDouble nineTenths ∧ isDouble ((0 : ℚ) - 3)
      ∧ 0 ≤ nineTenths ∧ nineTenths ≤ 1
      ∧ (moveFromThree.update (some nineTenths)).1
          = some (337769972052787 / 1125899906842624)
      ∧ isDouble ((1 - nineTenths) * 3 + nineTenths * 0)
      ∧ (337769972052787 / 1125899906842624 : ℚ)
          ≠ (1 - nineTenths) * 3 + nineTenths * 0) := by
  refine ⟨⟨isDouble_one, isDouble_tenth, update_moveToTenth_one, ?_, ?_⟩,
    ⟨roundToDouble_int _ _ 3 (by norm_num) (by norm_num) (by norm_num), roundToDouble_zero,
      isDouble_nineTenths,
      roundToDouble_int _ _ (-3) (by norm_num) (by norm_num) (by norm_num),
      ?_, ?_, update_moveFromThree, isDouble_convex_moveFromThree, ?_⟩⟩
  · rw [lt_min_iff, tenth]
    constructor <;> norm_num
  · rw [tenth]
    norm_num
  · rw [nineTenths]; norm_num
  · rw [nineTenths]; norm_num
  · rw [nineTenths]; norm_num

/-- C18, amended. For a starting position and a target made of binary64 numbers and every
`atNormalizedTime = t` with `0 ≤ t ≤ 1`, on each axis on which the `double` subtraction
`target - start` is exact: the coordinate `update` passes to `zippy->move` is finite and
lies between the start and the target coordinate, `min s g ≤ v ≤ max s g`, whatever the
product and the sum lose to rounding; and it is `(1 - t) * s + t * g` whenever in
addition the product `(g - s) * t` and the sum `s + (g - s) * t` are binary64 numbers. -/
theorem C18_stays_on_segment (sx sy gx gy t : ℚ) (o : Double) (T : Nat)
    (hsx : isDouble sx) (hsy : isDouble sy) (hgx : isDouble gx) (hgy : isDouble gy)
    (h0 : 0 ≤ t) (h1 : t ≤ 1) :
    (isDouble (gx - sx) →
        ∃ v, (LinearMove.update ⟨⟨⟨some sx, some sy⟩⟩, ⟨some gx, some gy⟩, o, T⟩
              (some t)).1 = some v
          ∧ min sx gx ≤ v ∧ v ≤ max sx gx
          ∧ (isDouble ((gx - sx) * t) → isDouble (sx + (gx - sx) * t) →
              v = (1 - t) * sx + t * gx))
      ∧ (isDouble (gy - sy) →
        ∃ v, (LinearMove.update ⟨⟨⟨some sx, some sy⟩⟩, ⟨some gx, some gy⟩, o, T⟩
              (some t)).2.1 = some v
          ∧ min sy gy ≤ v ∧ v ≤ max sy gy
          ∧ (isDouble ((gy - sy) * t) → isDouble (sy + (gy - sy) * t) →
              v = (1 - t) * sy + t * gy)) := by
  have axis : ∀ s g : ℚ, isDouble s → isDouble g → isDouble (g - s) →
      ∃ v, dadd (some s) (dmul (dsub (some g) (some s)) (some t)) = some v
        ∧ min s g ≤ v ∧ v ≤ max s g
        ∧ (isDouble ((g - s) * t) → isDouble (s + (g - s) * t) →
            v = (1 - t) * s + t * g) := by
    intro s g hs hg hd
    obtain ⟨v, hv, hlo, hhi⟩ := interpolate_between s g t hs hg hd h0 h1
    refine ⟨v, hv, hlo, hhi, ?_⟩
    intro hp hr
    have he := interpolate_exact s g t hd hp hr
    rw [hv] at he
    rw [Option.some.inj he]
    ring
  exact ⟨axis sx gx hsx hgx, axis sy gy hsy hgy⟩

/-- C18 (amended) at the first segment of the leader path, from `(-60, -2810)` to
`(50, -3170)`, and `atNormalizedTime = 0.1`: both coordinates passed are finite and within
the segment, although the products with `0.1` are rounded. -/
theorem C18_stays_on_segment_witness :
    (∃ v, (LinearMove.update ⟨⟨⟨some (-60), some (-2810)⟩⟩, ⟨some 50, some (-3170)⟩,
            none, 1000⟩ (some tenth)).1 = some v
        ∧ min (-60) 50 ≤ v ∧ v ≤ max (-60) 50)
      ∧ (∃ v, (LinearMove.update ⟨⟨⟨some (-60), some (-2810)⟩⟩, ⟨some 50, some (-3170)⟩,
            none, 1000⟩ (some tenth)).2.1 = some v
        ∧ min (-2810) (-3170) ≤ v ∧ v ≤ max (-2810) (-3170)) := by
  have h := C18_stays_on_segment (-60) (-2810) 50 (-3170) tenth none 1000
    (roundToDouble_int _ _ (-60) (by norm_num) (by norm_num) (by norm_num))
    (roundToDouble_int _ _ (-2810) (by norm_num) (by norm_num) (by norm_num))
    (roundToDouble_int _ _ 50 (by norm_num) (by norm_num) (by norm_num))
    (roundToDouble_int _ _ (-3170) (by norm_num) (by norm_num) (by norm_num))
    (by rw [tenth]; norm_num) (by rw [tenth]; norm_num)
  obtain ⟨vx, hvx, hx0, hx1, _⟩ :=
    h.1 (roundToDouble_int _ _ 110 (by norm_num) (by norm_num) (by norm_num))
  obtain ⟨vy, hvy, hy0, hy1, _⟩ :=
    h.2 (roundToDouble_int _ _ (-360) (by norm_num) (by norm_num) (by norm_num))
  exact ⟨⟨vx, hvx, hx0, hx1⟩, ⟨vy, hvy, hy0, hy1⟩⟩

/-- A tick with signal clears the timestamp and goes on to the advance step. -/
theorem loop_of_signal (s : AutoDriveMode) (i : Tick)
    (hc : s.currentCommand < ZIPPY_COMMAND_COUNT) (hs : i.signal = true) :
    s.loop i = AutoDriveMode.advance { s with lostPositionTimestamp := 0 } i := by
  simp [AutoDriveMode.loop, hs, Nat.not_le.mpr hc]

/-- A tick without signal in a moving state with timestamp 0 stores the tick time and goes
on to the advance step. -/
theorem loop_of_unarmed (s : AutoDriveMode) (i : Tick)
    (hc : s.currentCommand < ZIPPY_COMMAND_COUNT) (hm : s.moving = true)
    (hs : i.signal = false) (hl : s.lostPositionTimestamp = 0) :
    s.loop i = AutoDriveMode.advance { s with lostPositionTimestamp := i.now } i := by
  simp [AutoDriveMode.loop, hm, hs, hl, Nat.not_le.mpr hc]

/-- A tick without signal in a moving state armed less than the timeout ago goes on to the
advance step. -/
theorem loop_of_armed_below (s : AutoDriveMode) (i : Tick)
    (hc : s.currentCommand < ZIPPY_COMMAND_COUNT) (hm : s.moving = true)
    (hs : i.signal = false) (hl : s.lostPositionTimestamp ≠ 0)
    (ht : ulongSub i.now s.lostPositionTimestamp < AUTODRIVE_MISSING_POSITION_TIMEOUT) :
    s.loop i = s.advance i := by
  simp [AutoDriveMode.loop, hm, hs, hl, Nat.not_le.mpr ht, Nat.not_le.mpr hc]

/-- Runs whose gaps stay below the timeout never stop: the invariant `watchdogTracks`
is kept by every tick. -/
theorem run_gaps_below_timeout :
    ∀ (ticks : List Tick) (s : AutoDriveMode) (r : Option Nat), s.moving = true →
      s.currentCommand < ZIPPY_COMMAND_COUNT →
      ticks.Pairwise (fun x y => x.now ≤ y.now) → (∀ i ∈ ticks, i.now < ULONG_MOD) →
      watchdogTracks s r ticks → gapsBelowTimeout r ticks = true →
      (s.run ticks).1.moving = true ∧ (s.run ticks).2.count Call.stop = 0 := by
  intro ticks
  induction ticks with
  | nil => intro s r hm _ _ _ _ _; exact ⟨hm, rfl⟩
  | cons i rest ih =>
    intro s r hm hc hmono hrange htr hg
    have hrest : ∀ j ∈ rest, j.now < ULONG_MOD :=
      fun j hj => hrange j (List.mem_cons_of_mem _ hj)
    have hmono2 : rest.Pairwise (fun x y => x.now ≤ y.now) := (List.pairwise_cons.mp hmono).2
    have hnext : ∀ j ∈ rest, i.now ≤ j.now := (List.pairwise_cons.mp hmono).1
    -- every case ends the same way, from a state reached by the advance step
    have finish : ∀ (q : AutoDriveMode) (r2 : Option Nat), s.loop i = q.advance i →
        q.moving = true → q.currentCommand < ZIPPY_COMMAND_COUNT →
        watchdogTracks q r2 rest → gapsBelowTimeout r2 rest = true →
        (s.run (i :: rest)).1.moving = true
          ∧ (s.run (i :: rest)).2.count Call.stop = 0 := by
      intro q r2 hloop qm qc qtr qg
      obtain ⟨am, al, ac, an⟩ := advance_of_moving q i qm qc
      have htr2 : watchdogTracks (q.advance i).1 r2 rest := by
        unfold watchdogTracks at qtr ⊢
        rw [al]
        exact qtr
      obtain ⟨r1, r3⟩ := ih (q.advance i).1 r2 am ac hmono2 hrest htr2 qg
      simp only [AutoDriveMode.run, hloop]
      exact ⟨r1, by rw [List.count_append, an, r3]⟩
    cases hs : i.signal with
    | true =>
      have hg2 : gapsBelowTimeout none rest = true := by
        simpa [gapsBelowTimeout, hs] using hg
      exact finish { s with lostPositionTimestamp := 0 } none (loop_of_signal s i hc hs)
        hm hc rfl hg2
    | false =>
      cases r with
      | none =>
        have hl : s.lostPositionTimestamp = 0 := htr
        have hg2 : gapsBelowTimeout (some i.now) rest = true := by
          simpa [gapsBelowTimeout, hs] using hg
        exact finish { s with lostPositionTimestamp := i.now } (some i.now)
          (loop_of_unarmed s i hc hm hs hl) hm hc
          ⟨Or.inr (le_refl _), hnext, hnext⟩ hg2
      | some t0 =>
        obtain ⟨h1, h2, h3⟩ := htr
        have hg2 : i.now - t0 < AUTODRIVE_MISSING_POSITION_TIMEOUT
            ∧ gapsBelowTimeout (some t0) rest = true := by
          simpa [gapsBelowTimeout, hs] using hg
        have ht0 : t0 ≤ i.now := h2 i (List.mem_cons_self _ _)
        have h2r : ∀ j ∈ rest, t0 ≤ j.now := fun j hj => h2 j (List.mem_cons_of_mem _ hj)
        by_cases hl : s.lostPositionTimestamp = 0
        · exact finish { s with lostPositionTimestamp := i.now } (some t0)
            (loop_of_unarmed s i hc hm hs hl) hm hc
            ⟨Or.inr ht0, h2r, hnext⟩ hg2.2
        · have ha : s.lostPositionTimestamp ≤ i.now := h3 i (List.mem_cons_self _ _)
          have hta : t0 ≤ s.lostPositionTimestamp := h1.resolve_left hl
          have hsub := ulongSub_of_le ha (hrange i (List.mem_cons_self _ _))
          have hlt : ulongSub i.now s.lostPositionTimestamp
              < AUTODRIVE_MISSING_POSITION_TIMEOUT := by
            have := hg2.1
            omega
          exact finish s (some t0) (loop_of_armed_below s i hc hm hs hl hlt) hm hc
            ⟨h1, h2r, fun j hj => h3 j (List.mem_cons_of_mem _ hj)⟩ hg2.2

/-- C12, refuted as stated: in the reachable moving state whose watchdog was armed at
1000, the sequence of the single tick without signal at 1200 has one run of ticks without
signal, of span 0, yet that tick calls `stop()` and ends the motion: the loss was
already in progress when the sequence began. -/
theorem C12_loss_in_progress_stops :
    Reachable armedAt1000 ∧ armedAt1000.moving = true
      ∧ gapsBelowTimeout none [⟨false, 1200, false⟩] = true
      ∧ armedAt1000.run [⟨false, 1200, false⟩] = (stoppedState, [Call.stop]) :=
  ⟨reachable_armedAt1000, rfl, by decide, by decide⟩

/-- C12, amended. From every reachable moving state, over every tick sequence with
non-decreasing `unsigned long` times none of which is earlier than the watchdog
timestamp of the state, if every maximal run of consecutive ticks without signal stays
less than 200 time units away from its first tick, a run already in progress at the
start (watchdog armed) being counted from the watchdog timestamp, then `stop()` is
never called and `moving` stays true. A tick with signal sets
`lostPositionTimestamp = 0`. -/
theorem C12_transient_gaps_tolerated (s : AutoDriveMode) (ticks : List Tick)
    (hr : Reachable s) (hm : s.moving = true)
    (hmono : ticks.Pairwise (fun x y => x.now ≤ y.now))
    (hrange : ∀ i ∈ ticks, i.now < ULONG_MOD)
    (hpast : ∀ i ∈ ticks, s.lostPositionTimestamp ≤ i.now)
    (hgaps : gapsBelowTimeout
      (if s.lostPositionTimestamp = 0 then none else some s.lostPositionTimestamp) ticks
        = true) :
    (s.run ticks).1.moving = true ∧ (s.run ticks).2.count Call.stop = 0
      ∧ ∀ i : Tick, i.signal = true → (s.loop i).1.lostPositionTimestamp = 0 := by
  have hc := reachable_currentCommand_lt hr
  have htr : watchdogTracks s
      (if s.lostPositionTimestamp = 0 then none else some s.lostPositionTimestamp)
      ticks := by
    by_cases hl : s.lostPositionTimestamp = 0
    · rw [if_pos hl]; exact hl
    · rw [if_neg hl]; exact ⟨Or.inr (le_refl _), hpast, hpast⟩
  obtain ⟨h1, h2⟩ := run_gaps_below_timeout ticks s _ hm hc hmono hrange htr hgaps
  refine ⟨h1, h2, ?_⟩
  intro i hs
  rw [loop_of_signal s i hc hs]
  cases hd : i.done <;> simp [AutoDriveMode.advance, hm, hd]

/-- C12 (amended) from the state armed at 1000: a gap up to 1199, a tick with signal at
1250, then a new gap from 1300 to 1499 (measured from scratch); no stop. -/
theorem C12_transient_gaps_tolerated_witness :
    (armedAt1000.run [⟨false, 1100, false⟩, ⟨false, 1199, true⟩, ⟨true, 1250, false⟩,
        ⟨false, 1300, false⟩, ⟨false, 1499, false⟩]).1.moving = true
      ∧ (armedAt1000.run [⟨false, 1100, false⟩, ⟨false, 1199, true⟩, ⟨true, 1250, false⟩,
        ⟨false, 1300, false⟩, ⟨false, 1499, false⟩]).2.count Call.stop = 0 :=
  have h := C12_transient_gaps_tolerated armedAt1000
    [⟨false, 1100, false⟩, ⟨false, 1199, true⟩, ⟨true, 1250, false⟩,
      ⟨false, 1300, false⟩, ⟨false, 1499, false⟩]
    reachable_armedAt1000 rfl (by decide) (by decide) (by decide) (by decide)
  ⟨h.1, h.2.1⟩

end Zippies
